import Mathlib

/-!
Verification of the yavcop color-extension core (`src/extension.ts`) against its
natural-language specification.

Modelling conventions, used throughout:

* JavaScript numbers are modelled by `JSNum`: an exact rational, `NaN`, or a
  signed infinity.  Double-precision rounding and overflow are idealised away
  (exact rational arithmetic); `NaN` and infinity propagation follow the
  ECMAScript rules at every operation that the embedded code performs.
* JavaScript strings are modelled as `List Char`; only ASCII case mapping is
  modelled (`toLowerCase` on the inputs in question is ASCII).
* Regular-expression matches from the source are re-implemented as
  deterministic character-level parsers.  Every regex in the embedded code has
  disjoint character classes at each choice point, so no backtracking is lost.
* Host objects (`vscode.Uri`, `Range`, decorations) are not part of the core
  logic and are omitted from the embedded records; the fields that the core
  reads (`value`, `selector`, `context.specificity`, document key/version) are
  kept.
-/

/-- Kernel-evaluable rational addition (`Rat.add` is irreducible; see
`ratAdd_eq_add`). -/
def ratAdd (a b : ℚ) : ℚ := mkRat (a.num * b.den + b.num * a.den) (a.den * b.den)

/-- Kernel-evaluable rational multiplication (see `ratMul_eq_mul`). -/
def ratMul (a b : ℚ) : ℚ := mkRat (a.num * b.num) (a.den * b.den)

/-- Kernel-evaluable rational subtraction (see `ratSub_eq_sub`). -/
def ratSub (a b : ℚ) : ℚ := mkRat (a.num * b.den - b.num * a.den) (a.den * b.den)

/-- A JavaScript number: `NaN`, `±Infinity`, or an exact rational. -/
inductive JSNum where
  | nan : JSNum
  | inf : JSNum
  | negInf : JSNum
  | num : ℚ → JSNum
deriving DecidableEq, Repr

namespace JSNum

instance : OfNat JSNum n := ⟨JSNum.num n⟩

/-- JS unary negation. -/
def neg : JSNum → JSNum
  | nan => nan
  | inf => negInf
  | negInf => inf
  | num q => num (-q)

/-- JS addition (`+`). -/
def add : JSNum → JSNum → JSNum
  | nan, _ => nan
  | _, nan => nan
  | inf, negInf => nan
  | negInf, inf => nan
  | inf, _ => inf
  | _, inf => inf
  | negInf, _ => negInf
  | _, negInf => negInf
  | num a, num b => num (ratAdd a b)

/-- JS subtraction (`-`). -/
def sub (a b : JSNum) : JSNum := add a (neg b)

/-- JS multiplication (`*`). -/
def mul : JSNum → JSNum → JSNum
  | nan, _ => nan
  | _, nan => nan
  | inf, inf => inf
  | inf, negInf => negInf
  | negInf, inf => negInf
  | negInf, negInf => inf
  | inf, num b => if b = 0 then nan else if 0 < b then inf else negInf
  | num a, inf => if a = 0 then nan else if 0 < a then inf else negInf
  | negInf, num b => if b = 0 then nan else if 0 < b then negInf else inf
  | num a, negInf => if a = 0 then nan else if 0 < a then negInf else inf
  | num a, num b => num (ratMul a b)

/-- Exact rational division, written with `mkRat` so that the kernel can
evaluate it (`Rat.inv` is irreducible); `ratDiv_eq_div` restates it as `/`. -/
def ratDiv (a b : ℚ) : ℚ :=
  if b.num < 0 then mkRat (-(a.num * b.den)) (a.den * b.num.natAbs)
  else mkRat (a.num * b.den) (a.den * b.num.natAbs)

/-- JS division (`/`); `-0` is not distinguished from `0`. -/
def div : JSNum → JSNum → JSNum
  | nan, _ => nan
  | _, nan => nan
  | inf, inf => nan
  | inf, negInf => nan
  | negInf, inf => nan
  | negInf, negInf => nan
  | inf, num b => if 0 ≤ b then inf else negInf
  | negInf, num b => if 0 ≤ b then negInf else inf
  | num _, inf => num 0
  | num _, negInf => num 0
  | num a, num b =>
    if b = 0 then (if a = 0 then nan else if 0 < a then inf else negInf)
    else num (ratDiv a b)

/-- JS `<` comparison: any comparison involving `NaN` is `false`. -/
def lt : JSNum → JSNum → Bool
  | nan, _ => false
  | _, nan => false
  | inf, _ => false
  | _, inf => true
  | negInf, negInf => false
  | negInf, _ => true
  | _, negInf => false
  | num a, num b => decide (a < b)

/-- JS strict equality `===` on numbers: `NaN === x` is always `false`. -/
def seq : JSNum → JSNum → Bool
  | nan, _ => false
  | _, nan => false
  | inf, inf => true
  | negInf, negInf => true
  | num a, num b => decide (a = b)
  | _, _ => false

/-- JS `Math.max` of two arguments (`NaN` absorbs). -/
def max2 (a b : JSNum) : JSNum :=
  match a, b with
  | nan, _ => nan
  | _, nan => nan
  | _, _ => if lt a b then b else a

/-- JS `Math.min` of two arguments (`NaN` absorbs). -/
def min2 (a b : JSNum) : JSNum :=
  match a, b with
  | nan, _ => nan
  | _, nan => nan
  | _, _ => if lt a b then a else b

/-- JS `Math.round`: round half towards `+∞` (`Rat.floor` keeps the kernel
able to evaluate it; `round_num_floor` below restates it with `Int.floor`). -/
def round : JSNum → JSNum
  | nan => nan
  | inf => inf
  | negInf => negInf
  | num q => num (Rat.floor (ratAdd q (mkRat 1 2)))

/-- JS `Number.isNaN`. -/
def isNaN : JSNum → Bool
  | nan => true
  | _ => false

end JSNum

open JSNum

/-- `clamp(value, min, max)` from the source: `Math.min(Math.max(value, min), max)`. -/
def clamp (value lo hi : JSNum) : JSNum := min2 (max2 value lo) hi

/-- The source's `round(value)`: `Math.round(value * 100) / 100`. -/
def round2 (value : JSNum) : JSNum := JSNum.div (JSNum.round (mul value 100)) 100

/-!  JavaScript string primitives, over `List Char` (ASCII fragment). -/

/-- JS `\s` / trimmed whitespace (ASCII part; the inputs in question are ASCII). -/
def isJsSpace (c : Char) : Bool :=
  c = ' ' || c = '\t' || c = '\n' || c = '\r' || c = '\x0b' || c = '\x0c'

/-- JS `String.prototype.trim`. -/
def jsTrim (l : List Char) : List Char :=
  ((l.dropWhile isJsSpace).reverse.dropWhile isJsSpace).reverse

/-- JS `String.prototype.toLowerCase`, ASCII case mapping. -/
def asciiToLower (c : Char) : Char :=
  if 'A' ≤ c ∧ c ≤ 'Z' then Char.ofNat (c.toNat + 32) else c

/-- `toLowerCase` over a whole string. -/
def toLowerList (l : List Char) : List Char := l.map asciiToLower

/-- JS `String.prototype.includes` for a literal needle. -/
def containsSub (hay needle : List Char) : Bool :=
  if needle.isPrefixOf hay then true
  else match hay with
    | [] => false
    | _ :: t => containsSub t needle

/-!  The seven serialization formats and `getFormatPriority` (claim C6). -/

/-- The `ColorFormat` union type from the source. -/
inductive ColorFormat where
  | hex | hexAlpha | rgb | rgba | hsl | hsla | tailwind
deriving DecidableEq, Repr, Fintype

/-- Helper for `jsSetDedup`: keep elements not yet seen, in order. -/
def jsSetDedupAux {α : Type} [DecidableEq α] (seen : List α) : List α → List α
  | [] => []
  | a :: l => if a ∈ seen then jsSetDedupAux seen l else a :: jsSetDedupAux (a :: seen) l

/-- `Array.from(new Set(xs))`: deduplication keeping first occurrences. -/
def jsSetDedup {α : Type} [DecidableEq α] (l : List α) : List α := jsSetDedupAux [] l

/-- `getFormatPriority` from the source: the fixed priority map, deduplicated
via `Array.from(new Set(order))`.  The `?? ['rgba','hex']` default of the
source is unreachable because the record is total over `ColorFormat`. -/
def getFormatPriority (original : ColorFormat) : List ColorFormat :=
  let order : List ColorFormat :=
    match original with
    | .hex => [.hex, .rgba, .rgb, .hexAlpha, .hsl, .hsla, .tailwind]
    | .hexAlpha => [.hexAlpha, .rgba, .hex, .hsla, .hsl, .tailwind]
    | .rgb => [.rgb, .rgba, .hex, .hexAlpha, .hsl, .hsla, .tailwind]
    | .rgba => [.rgba, .hexAlpha, .hex, .hsla, .hsl, .tailwind]
    | .hsl => [.hsl, .hsla, .rgba, .hex, .hexAlpha, .tailwind]
    | .hsla => [.hsla, .rgba, .hexAlpha, .hex, .tailwind, .hsl]
    | .tailwind => [.tailwind, .hsla, .hsl, .rgba, .hexAlpha, .hex]
  jsSetDedup order

/-- C6 counterexample: the claim says every priority list contains each of the
7 formats, but the list for source format `hexAlpha` does not contain `rgb`
(the same omission occurs for `rgba`, `hsl`, `hsla` and `tailwind`). -/
theorem getFormatPriority_hexAlpha_missing_rgb :
    ColorFormat.rgb ∉ getFormatPriority ColorFormat.hexAlpha := by decide

/-- C6 (amended): for every source format, `getFormatPriority` returns a
duplicate-free preference ordering; for source formats `hex` and `rgb` it
contains all 7 formats, while for the remaining five source formats it
contains exactly the 6 formats other than `rgb`. -/
theorem getFormatPriority_nodup_coverage :
    ∀ src : ColorFormat,
      (getFormatPriority src).Nodup ∧
      (src = ColorFormat.hex ∨ src = ColorFormat.rgb →
        ∀ f : ColorFormat, f ∈ getFormatPriority src) ∧
      (src ≠ ColorFormat.hex ∧ src ≠ ColorFormat.rgb →
        ColorFormat.rgb ∉ getFormatPriority src ∧
        ∀ f : ColorFormat, f ≠ ColorFormat.rgb → f ∈ getFormatPriority src) := by
  decide

/-!  `analyzeContext` (claims C2 and, via specificity, C1). -/

/-- The `type` union of `CSSVariableContext`. -/
inductive ContextType where
  | root | «class» | media | other
deriving DecidableEq, Repr

/-- The `themeHint` union of `CSSVariableContext`. -/
inductive ThemeHint where
  | light | dark
deriving DecidableEq, Repr

/-- `CSSVariableContext` from the source (host-independent fields). -/
structure CSSVariableContext where
  type : ContextType
  themeHint : Option ThemeHint
  mediaQuery : Option (List Char)
  specificity : ℤ
deriving DecidableEq, Repr

/-- One attempt of the regex `/@media\s+([^{]+)/` anchored at the head of `l`:
literal `@media`, then at least one whitespace character (greedy), then at
least one non-`{` character (greedy), with regex backtracking between the two
greedy classes resolved explicitly (whitespace is a subset of `[^{]`). -/
def mediaMatchAt (l : List Char) : Option (List Char) :=
  if ("@media".data).isPrefixOf l then
    let rest := l.drop 6
    let ws := rest.takeWhile isJsSpace
    let tail := rest.dropWhile isJsSpace
    if ws.length = 0 then none
    else
      match tail with
      | [] => if 2 ≤ ws.length then some [ws.getLastD ' '] else none
      | c :: _ =>
        if c = '{' then
          if 2 ≤ ws.length then some [ws.getLastD ' '] else none
        else some (tail.takeWhile (fun c => c ≠ '{'))
  else none

/-- Leftmost match of `/@media\s+([^{]+)/`, returning capture group 1. -/
def findMediaMatch : List Char → Option (List Char)
  | [] => none
  | l@(_ :: t) =>
    match mediaMatchAt l with
    | some g => some g
    | none => findMediaMatch t

/-- `analyzeContext` from the source: specificity score, context type, theme
hint and media query, all computed from the selector text. -/
def analyzeContext (selector : List Char) : CSSVariableContext :=
  let normalizedSelector := jsTrim (toLowerList selector)
  let specificity : ℤ :=
    if normalizedSelector = ":root".data ∨ normalizedSelector = "html".data then 1
    else if normalizedSelector.contains '.' then
      10 + (normalizedSelector.count '.' : ℤ) * 10
    else if normalizedSelector.contains '#' then 100
    else 0
  let type :=
    if normalizedSelector = ":root".data ∨ normalizedSelector = "html".data then
      ContextType.root
    else if normalizedSelector.contains '.' || normalizedSelector.contains '[' then
      ContextType.class
    else if containsSub normalizedSelector "@media".data then ContextType.media
    else ContextType.other
  let themeHint : Option ThemeHint :=
    if containsSub normalizedSelector ".dark".data ||
        containsSub normalizedSelector "[data-theme=\"dark\"]".data ||
        containsSub normalizedSelector "[data-mode=\"dark\"]".data then
      some ThemeHint.dark
    else if containsSub normalizedSelector ".light".data ||
        containsSub normalizedSelector "[data-theme=\"light\"]".data then
      some ThemeHint.light
    else none
  let mediaQuery := (findMediaMatch selector).map jsTrim
  { type := type, themeHint := themeHint, mediaQuery := mediaQuery,
    specificity := specificity }

/-- The specificity rule exactly as the claim states it (including the
"class **or attribute** selector" clause), written from the spec's words. -/
def claimSpecificity (selector : List Char) : ℤ :=
  let norm := jsTrim (toLowerList selector)
  if norm = ":root".data ∨ norm = "html".data then 1
  else if 0 < norm.count '.' ∨ norm.contains '[' then 10 + 10 * (norm.count '.' : ℤ)
  else if norm.contains '#' then 100
  else 0

/-- The specificity rule with the attribute-selector clause removed: the
minimal amendment the code forces. -/
def amendedSpecificity (selector : List Char) : ℤ :=
  let norm := jsTrim (toLowerList selector)
  if norm = ":root".data ∨ norm = "html".data then 1
  else if 0 < norm.count '.' then 10 + 10 * (norm.count '.' : ℤ)
  else if 0 < norm.count '#' then 100
  else 0

/-- C2 counterexample: on the pure attribute selector `[x]` the code computes
specificity 0, while the claim's rule ("contains a class or attribute
selector → 10 + 10×classes") demands 10. -/
theorem analyzeContext_attribute_selector_diverges :
    (analyzeContext "[x]".data).specificity = 0 ∧ claimSpecificity "[x]".data = 10 ∧
      (analyzeContext "[x]".data).specificity ≠ claimSpecificity "[x]".data := by
  decide

/-- C2 (amended): the computed specificity is exactly 1 for `:root`/`html`
(lowercased, trimmed), `10 + 10×(number of class markers)` when the selector
contains a class marker `.`, 100 when it contains an ID marker `#` (and no
class marker), and 0 otherwise — attribute selectors alone score 0. -/
theorem analyzeContext_specificity_amended (selector : List Char) :
    (analyzeContext selector).specificity = amendedSpecificity selector := by
  have hcontains : ∀ (l : List Char) (c : Char), l.contains c = decide (0 < l.count c) := by
    intro l c
    induction l with
    | nil => simp
    | cons a t ih =>
      by_cases h : a = c
      · subst h
        simp [List.count_cons]
      · simp [List.contains_cons, List.count_cons, h, ih, Ne.symm h, beq_iff_eq]
  simp only [analyzeContext, amendedSpecificity, hcontains, decide_eq_true_eq, mul_comm]

/-!  JavaScript numeric string parsing (`parseFloat`, `Number`). -/

/-- ASCII decimal digit test. -/
def isAsciiDigit (c : Char) : Bool := '0' ≤ c && c ≤ '9'

/-- Value of a list of decimal digits. -/
def digitsToNat (l : List Char) : Nat :=
  l.foldl (fun acc c => acc * 10 + (c.toNat - 48)) 0

/-- Hexadecimal digit value, matching the regex class `[0-9a-f]` with the `i`
flag (and JS `parseInt(_, 16)`). -/
def hexVal? (c : Char) : Option Nat :=
  match c with
  | '0' => some 0 | '8' => some 8 | '1' => some 1 | '9' => some 9
  | '2' => some 2 | 'a' => some 10 | '3' => some 3 | 'b' => some 11
  | '4' => some 4 | 'c' => some 12 | '5' => some 5 | 'd' => some 13
  | '6' => some 6 | 'e' => some 14 | '7' => some 7 | 'f' => some 15
  | 'A' => some 10 | 'B' => some 11 | 'C' => some 12 | 'D' => some 13
  | 'E' => some 14 | 'F' => some 15
  | _ => none

/-- Value `intDigits.fracDigits × 10^(±eabs)` of a decimal literal, as an
exact rational (built with `mkRat` so the kernel can evaluate it). -/
def decimalValue (intDigits fracDigits : List Char) (esgnNeg : Bool) (eabs : Nat) : ℚ :=
  let base : Nat := digitsToNat (intDigits ++ fracDigits)
  if esgnNeg then mkRat (base : Int) (((10 : Nat) ^ (fracDigits.length + eabs) : Nat))
  else mkRat (((base * 10 ^ eabs : Nat) : Int)) (((10 : Nat) ^ fracDigits.length : Nat))

/-- JS `parseFloat`: skip leading whitespace, optional sign, `Infinity` or the
longest decimal-literal prefix (`digits[.digits][e[sign]digits]`); `NaN` when
no digits are found. -/
def parseFloatJS (l : List Char) : JSNum :=
  let l := l.dropWhile isJsSpace
  let sgnNeg : Bool := match l with | '-' :: _ => true | _ => false
  let l := match l with | '-' :: t => t | '+' :: t => t | _ => l
  if ("Infinity".data).isPrefixOf l then (if sgnNeg then JSNum.negInf else JSNum.inf)
  else
    let intDigits := l.takeWhile isAsciiDigit
    let l1 := l.dropWhile isAsciiDigit
    let frac : List Char × List Char :=
      match l1 with
      | '.' :: t => (t.takeWhile isAsciiDigit, t.dropWhile isAsciiDigit)
      | _ => ([], l1)
    let fracDigits := frac.1
    let l2 := frac.2
    if intDigits = [] ∧ fracDigits = [] then JSNum.nan
    else
      let expPart : Bool × Nat :=
        match l2 with
        | 'e' :: t | 'E' :: t =>
          let esgnNeg : Bool := match t with | '-' :: _ => true | _ => false
          let t := match t with | '-' :: u => u | '+' :: u => u | _ => t
          let eds := t.takeWhile isAsciiDigit
          if eds = [] then (false, 0) else (esgnNeg, digitsToNat eds)
        | _ => (false, 0)
      let m := decimalValue intDigits fracDigits expPart.1 expPart.2
      JSNum.num (if sgnNeg then -m else m)

/-- Full-string decimal literal for `Number(...)`: `digits[.digits][exp]`, all
input consumed, at least one digit; `none` when malformed. -/
def parseDecimalFull (l : List Char) : Option ℚ :=
  let intDigits := l.takeWhile isAsciiDigit
  let l1 := l.dropWhile isAsciiDigit
  let frac : List Char × List Char :=
    match l1 with
    | '.' :: t => (t.takeWhile isAsciiDigit, t.dropWhile isAsciiDigit)
    | _ => ([], l1)
  let fracDigits := frac.1
  let l2 := frac.2
  if intDigits = [] ∧ fracDigits = [] then none
  else
    match l2 with
    | [] => some (decimalValue intDigits fracDigits false 0)
    | 'e' :: t | 'E' :: t =>
      let esgnNeg : Bool := match t with | '-' :: _ => true | _ => false
      let t := match t with | '-' :: u => u | '+' :: u => u | _ => t
      let eds := t.takeWhile isAsciiDigit
      if eds = [] ∨ t.dropWhile isAsciiDigit ≠ [] then none
      else some (decimalValue intDigits fracDigits esgnNeg (digitsToNat eds))
    | _ => none

/-- Value of a radix literal body under a digit valuation, `none` when empty
or containing an invalid digit. -/
def radixValue (dv : Char → Option Nat) (radix : Nat) (l : List Char) : Option Nat :=
  match l with
  | [] => none
  | _ =>
    l.foldl (fun acc c =>
      match acc, dv c with
      | some a, some d => some (a * radix + d)
      | _, _ => none) (some 0)

/-- Octal digit value. -/
def octVal? (c : Char) : Option Nat :=
  if '0' ≤ c ∧ c ≤ '7' then some (c.toNat - 48) else none

/-- Binary digit value. -/
def binVal? (c : Char) : Option Nat :=
  if c = '0' ∨ c = '1' then some (c.toNat - 48) else none

/-- Signed decimal or `Infinity` for `Number(...)`, full consumption. -/
def jsNumberSigned (t : List Char) : JSNum :=
  let sgnNeg : Bool := match t with | '-' :: _ => true | _ => false
  let t := match t with | '-' :: u => u | '+' :: u => u | _ => t
  if t = "Infinity".data then (if sgnNeg then JSNum.negInf else JSNum.inf)
  else
    match parseDecimalFull t with
    | some q => JSNum.num (if sgnNeg then -q else q)
    | none => JSNum.nan

/-- JS `Number(string)`: trim; empty → 0; `0x`/`0o`/`0b` radix literals
(unsigned); otherwise a fully-consumed signed decimal literal or `Infinity`;
anything else → `NaN`. -/
def jsNumber (l : List Char) : JSNum :=
  let t := jsTrim l
  match t with
  | [] => JSNum.num 0
  | '0' :: x :: rest =>
    if x = 'x' ∨ x = 'X' then
      match radixValue hexVal? 16 rest with
      | some n => JSNum.num n
      | none => JSNum.nan
    else if x = 'o' ∨ x = 'O' then
      match radixValue octVal? 8 rest with
      | some n => JSNum.num n
      | none => JSNum.nan
    else if x = 'b' ∨ x = 'B' then
      match radixValue binVal? 2 rest with
      | some n => JSNum.num n
      | none => JSNum.nan
    else jsNumberSigned t
  | _ => jsNumberSigned t

/-!  `normalizeAlpha` (claim C7). -/

/-- `normalizeAlpha` from the source: absent → 1; `…%` → `clamp(parseFloat,0,100)/100`;
numeric → `clamp(value,0,1)`; `NaN` → 1. -/
def normalizeAlpha (value : Option (List Char)) : JSNum :=
  match value with
  | none => JSNum.num 1
  | some v =>
    let trimmed := jsTrim v
    if ['%'].isSuffixOf trimmed then
      let percent := clamp (parseFloatJS trimmed) 0 100
      JSNum.div percent 100
    else
      let numeric := jsNumber trimmed
      if numeric.isNaN then JSNum.num 1
      else clamp numeric 0 1

/-- Unfolding `mkRat` into field division. -/
theorem mkRat_eq_cast_div (n : ℤ) (d : ℕ) : mkRat n d = (n : ℚ) / (d : ℚ) := by
  rw [Rat.mkRat_eq_divInt, Rat.divInt_eq_div]
  norm_num

/-- Bridge: `ratAdd` agrees with field addition on `ℚ`. -/
theorem ratAdd_eq_add (a b : ℚ) : ratAdd a b = a + b := by
  have hda : (a.den : ℚ) ≠ 0 := Nat.cast_ne_zero.mpr a.den_nz
  have hdb : (b.den : ℚ) ≠ 0 := Nat.cast_ne_zero.mpr b.den_nz
  have ha : (a.num : ℚ) = a * a.den := by
    have h := Rat.num_div_den a
    rw [div_eq_iff hda] at h
    exact h
  have hbn : (b.num : ℚ) = b * b.den := by
    have h := Rat.num_div_den b
    rw [div_eq_iff hdb] at h
    exact h
  rw [ratAdd, mkRat_eq_cast_div]
  push_cast
  rw [ha, hbn, div_eq_iff (mul_ne_zero hda hdb)]
  ring

/-- Bridge: `ratMul` agrees with field multiplication on `ℚ`. -/
theorem ratMul_eq_mul (a b : ℚ) : ratMul a b = a * b := by
  have hda : (a.den : ℚ) ≠ 0 := Nat.cast_ne_zero.mpr a.den_nz
  have hdb : (b.den : ℚ) ≠ 0 := Nat.cast_ne_zero.mpr b.den_nz
  have ha : (a.num : ℚ) = a * a.den := by
    have h := Rat.num_div_den a
    rw [div_eq_iff hda] at h
    exact h
  have hbn : (b.num : ℚ) = b * b.den := by
    have h := Rat.num_div_den b
    rw [div_eq_iff hdb] at h
    exact h
  rw [ratMul, mkRat_eq_cast_div]
  push_cast
  rw [ha, hbn, div_eq_iff (mul_ne_zero hda hdb)]
  ring

/-- Bridge: `ratSub` agrees with field subtraction on `ℚ`. -/
theorem ratSub_eq_sub (a b : ℚ) : ratSub a b = a - b := by
  have hda : (a.den : ℚ) ≠ 0 := Nat.cast_ne_zero.mpr a.den_nz
  have hdb : (b.den : ℚ) ≠ 0 := Nat.cast_ne_zero.mpr b.den_nz
  have ha : (a.num : ℚ) = a * a.den := by
    have h := Rat.num_div_den a
    rw [div_eq_iff hda] at h
    exact h
  have hbn : (b.num : ℚ) = b * b.den := by
    have h := Rat.num_div_den b
    rw [div_eq_iff hdb] at h
    exact h
  rw [ratSub, mkRat_eq_cast_div]
  push_cast
  rw [ha, hbn, div_eq_iff (mul_ne_zero hda hdb)]
  ring

/-- Evaluation lemma: JS addition of finite rationals. -/
theorem jsAdd_num_num (a b : ℚ) :
    JSNum.add (JSNum.num a) (JSNum.num b) = JSNum.num (a + b) := by
  show JSNum.num (ratAdd a b) = _
  rw [ratAdd_eq_add]

/-- Evaluation lemma: JS multiplication of finite rationals. -/
theorem jsMul_num_num (a b : ℚ) :
    JSNum.mul (JSNum.num a) (JSNum.num b) = JSNum.num (a * b) := by
  show JSNum.num (ratMul a b) = _
  rw [ratMul_eq_mul]

/-- Evaluation lemma: JS subtraction of finite rationals. -/
theorem jsSub_num_num (a b : ℚ) :
    JSNum.sub (JSNum.num a) (JSNum.num b) = JSNum.num (a - b) := by
  show JSNum.add (JSNum.num a) (JSNum.num (-b)) = _
  rw [jsAdd_num_num]
  ring_nf

/-- Bridge: the kernel-friendly `Rat.floor` in `JSNum.round` is `Int.floor`. -/
theorem ratFloor_eq_intFloor (q : ℚ) : Rat.floor q = ⌊q⌋ := by
  refine le_antisymm ?_ ?_
  · exact Int.le_floor.mpr (Rat.le_floor.mp le_rfl)
  · exact Rat.le_floor.mpr (Int.floor_le q)

/-- Evaluation lemma for `JSNum.round` on rationals, in `Int.floor` form. -/
theorem round_num_floor (q : ℚ) :
    JSNum.round (JSNum.num q) = JSNum.num (⌊q + 1/2⌋ : ℤ) := by
  show JSNum.num (Rat.floor (ratAdd q (mkRat 1 2))) = _
  rw [ratFloor_eq_intFloor, ratAdd_eq_add]
  norm_num [Rat.mkRat_eq_divInt, Rat.divInt_eq_div]

/-- Evaluation lemma: `Math.max` on finite rationals is the rational `max`. -/
theorem max2_num (a b : ℚ) :
    max2 (JSNum.num a) (JSNum.num b) = JSNum.num (max a b) := by
  show (if JSNum.lt (JSNum.num a) (JSNum.num b) = true then JSNum.num b else JSNum.num a) =
    JSNum.num (max a b)
  by_cases h : a < b
  · simp [JSNum.lt, h, max_eq_right h.le]
  · simp [JSNum.lt, h, max_eq_left (not_lt.mp h)]

/-- Evaluation lemma: `Math.min` on finite rationals is the rational `min`. -/
theorem min2_num (a b : ℚ) :
    min2 (JSNum.num a) (JSNum.num b) = JSNum.num (min a b) := by
  show (if JSNum.lt (JSNum.num a) (JSNum.num b) = true then JSNum.num a else JSNum.num b) =
    JSNum.num (min a b)
  by_cases h : a < b
  · simp [JSNum.lt, h, min_eq_left h.le]
  · simp [JSNum.lt, h, min_eq_right (not_lt.mp h)]

/-- Evaluation lemma: `clamp` on finite rationals is the rational clamp. -/
theorem clamp_num (v lo hi : ℚ) :
    clamp (JSNum.num v) (JSNum.num lo) (JSNum.num hi) = JSNum.num (min (max v lo) hi) := by
  rw [clamp, max2_num, min2_num]

/-- Bridge: `ratDiv` agrees with field division on `ℚ`. -/
theorem ratDiv_eq_div (a b : ℚ) : ratDiv a b = a / b := by
  rcases eq_or_ne b 0 with rfl | hb
  · simp [ratDiv, mkRat_eq_cast_div]
  have hda : (a.den : ℚ) ≠ 0 := Nat.cast_ne_zero.mpr a.den_nz
  have hdb : (b.den : ℚ) ≠ 0 := Nat.cast_ne_zero.mpr b.den_nz
  have ha : (a.num : ℚ) = a * a.den := by
    have h := Rat.num_div_den a
    rw [div_eq_iff hda] at h
    exact h
  have hbn : (b.num : ℚ) = b * b.den := by
    have h := Rat.num_div_den b
    rw [div_eq_iff hdb] at h
    exact h
  have hbnum : b.num ≠ 0 := Rat.num_ne_zero.mpr hb
  have hpos : (0 : ℚ) < a.den := by exact_mod_cast a.pos
  rcases lt_trichotomy b.num 0 with h | h | h
  · have hneg : (b.num : ℚ) < 0 := by exact_mod_cast h
    rw [ratDiv, if_pos h, mkRat_eq_cast_div]
    push_cast
    rw [Int.cast_natAbs, Int.cast_abs, abs_of_neg hneg]
    rw [div_eq_div_iff (ne_of_gt (mul_pos hpos (neg_pos.mpr hneg))) hb]
    rw [ha, hbn]
    ring
  · exact absurd h hbnum
  · have hposn : (0 : ℚ) < (b.num : ℚ) := by exact_mod_cast h
    rw [ratDiv, if_neg (by omega), mkRat_eq_cast_div]
    push_cast
    rw [Int.cast_natAbs, Int.cast_abs, abs_of_pos hposn]
    rw [div_eq_div_iff (ne_of_gt (mul_pos hpos hposn)) hb]
    rw [ha, hbn]
    ring

/-- Evaluation lemma: JS division of finite rationals with nonzero divisor. -/
theorem jsDiv_num_num (a b : ℚ) (hb : b ≠ 0) :
    JSNum.div (JSNum.num a) (JSNum.num b) = JSNum.num (a / b) := by
  simp [JSNum.div, hb, ratDiv_eq_div]

/-- C7 (amended): `normalizeAlpha` returns 1 when the component is absent;
`clamp(v,0,100)/100` when the trimmed component ends in `%` and its numeric
part parses to `v`; `NaN` (not 1) when it ends in `%` but its numeric part
does not parse; `clamp(v,0,1)` when it is a bare number parsing to `v`;
and 1 when it is non-numeric without a `%` suffix. -/
theorem normalizeAlpha_spec :
    normalizeAlpha none = JSNum.num 1 ∧
    (∀ (s : List Char) (v : ℚ), ['%'].isSuffixOf (jsTrim s) →
      parseFloatJS (jsTrim s) = JSNum.num v →
      normalizeAlpha (some s) = JSNum.num (min (max v 0) 100 / 100)) ∧
    (∀ (s : List Char), ['%'].isSuffixOf (jsTrim s) →
      parseFloatJS (jsTrim s) = JSNum.nan →
      normalizeAlpha (some s) = JSNum.nan) ∧
    (∀ (s : List Char) (v : ℚ), ¬ (['%'].isSuffixOf (jsTrim s) = true) →
      jsNumber (jsTrim s) = JSNum.num v →
      normalizeAlpha (some s) = JSNum.num (min (max v 0) 1)) ∧
    (∀ (s : List Char), ¬ (['%'].isSuffixOf (jsTrim s) = true) →
      jsNumber (jsTrim s) = JSNum.nan →
      normalizeAlpha (some s) = JSNum.num 1) := by
  have h0 : (0 : JSNum) = JSNum.num 0 := rfl
  have h1 : (1 : JSNum) = JSNum.num 1 := rfl
  have h100 : (100 : JSNum) = JSNum.num 100 := rfl
  refine ⟨rfl, ?_, ?_, ?_, ?_⟩
  · intro s v hpct hpf
    simp only [normalizeAlpha, hpct, if_true, hpf, h0, h100, clamp_num]
    exact jsDiv_num_num _ _ (by norm_num)
  · intro s hpct hpf
    simp only [normalizeAlpha, hpct, if_true, hpf]
    rfl
  · intro s v hpct hnum
    rw [Bool.not_eq_true] at hpct
    simp only [normalizeAlpha, hpct, Bool.false_eq_true, if_false, hnum, JSNum.isNaN,
      h0, h1, clamp_num]
  · intro s hpct hnan
    rw [Bool.not_eq_true] at hpct
    simp [normalizeAlpha, hpct, Bool.false_eq_true, if_false, hnan, JSNum.isNaN]

/-- C7 witness: concrete instances of each clause (`50%` → 0.5, `x%` → NaN,
`0.3` → 0.3, `x` → 1, absent → 1). -/
theorem normalizeAlpha_spec_witness :
    normalizeAlpha none = JSNum.num 1 ∧
    normalizeAlpha (some "50%".data) = JSNum.num (min (max 50 0) 100 / 100) ∧
    normalizeAlpha (some "x%".data) = JSNum.nan ∧
    normalizeAlpha (some "0.3".data) = JSNum.num (min (max (mkRat 3 10) 0) 1) ∧
    normalizeAlpha (some "x".data) = JSNum.num 1 :=
  ⟨normalizeAlpha_spec.1,
   normalizeAlpha_spec.2.1 "50%".data 50 (by decide) (by decide),
   normalizeAlpha_spec.2.2.1 "x%".data (by decide) (by decide),
   normalizeAlpha_spec.2.2.2.1 "0.3".data (mkRat 3 10) (by decide) (by decide),
   normalizeAlpha_spec.2.2.2.2 "x".data (by decide) (by decide)⟩

/-!  The analysis cache (`ensureColorData` / `computeColorData`), claims C3, C4.

The asynchronous flow is modelled as a state machine: `ensureRequest` is the
synchronous body of `ensureColorData` up to (and including) storing the
in-flight computation; `settle` is the pair of `.then`/`.catch` continuations
that run when `computeColorData`'s promise settles.  The scan itself
(`computeColorData`) is abstracted to its outcome (`Except Unit Nat`, with a
`Nat` standing for the identity of the produced `ColorData[]` object), and the
invocation counter `scanCount` counts how many times it is started. -/

/-- A document as the cache sees it: identity key, revision, and the result of
`shouldDecorate` (a host-configuration check, abstracted to a field). -/
structure CacheDoc where
  key : String
  version : Int
  decorate : Bool
deriving DecidableEq, Repr

/-- Assoc-list update matching `Map.set` (replace or append). -/
def mapSet {κ β : Type} [DecidableEq κ] (m : List (κ × β)) (k : κ) (v : β) : List (κ × β) :=
  match m with
  | [] => [(k, v)]
  | (k', v') :: rest => if k' = k then (k, v) :: rest else (k', v') :: mapSet rest k v

/-- Assoc-list removal matching `Map.delete` (key sets of `Map` states are
duplicate-free, so removing every binding of the key is the same operation). -/
def mapDelete {κ β : Type} [DecidableEq κ] (m : List (κ × β)) (k : κ) : List (κ × β) :=
  m.filter (fun p => p.1 ≠ k)

/-- Assoc-list lookup matching `Map.get`. -/
def mapGet {κ β : Type} [DecidableEq κ] (m : List (κ × β)) (k : κ) : Option β :=
  match m with
  | [] => none
  | (k', v') :: rest => if k' = k then some v' else mapGet rest k

/-- The extension's module-level cache state: `colorDataCache` (version and
data-object identity per key), `pendingColorComputations` (in-flight promise
identity per key), and the number of scans started. -/
structure CacheState where
  cache : List (String × (Int × Nat))
  pending : List (String × Nat)
  scanCount : Nat
deriving DecidableEq, Repr

/-- What `ensureColorData` hands back to its caller, synchronously: an empty
array (ineligible document), the cached `ColorData[]` object, or a promise
(identified by the computation it resolves with). -/
inductive RequestResult where
  | emptyResult : RequestResult
  | value : Nat → RequestResult
  | promiseOf : Nat → RequestResult
deriving DecidableEq, Repr

/-- `clearColorCacheForDocument` from the source. -/
def clearColorCacheForDocument (st : CacheState) (key : String) : CacheState :=
  { st with cache := mapDelete st.cache key, pending := mapDelete st.pending key }

/-- The synchronous body of `ensureColorData`: ineligible documents clear the
cache and return `[]`; a cache hit on the current version returns the stored
data; an in-flight computation is returned as-is; otherwise a new computation
is started (fresh promise identity = current `scanCount`) and stored in
`pendingColorComputations`. -/
def ensureRequest (st : CacheState) (doc : CacheDoc) : RequestResult × CacheState :=
  if !doc.decorate then
    (RequestResult.emptyResult, clearColorCacheForDocument st doc.key)
  else
    match mapGet st.cache doc.key with
    | some (v, d) =>
      if v = doc.version then (RequestResult.value d, st)
      else ensureRequestMiss st doc
    | none => ensureRequestMiss st doc
where
  /-- Cache miss path: reuse the pending computation or start a new one. -/
  ensureRequestMiss (st : CacheState) (doc : CacheDoc) : RequestResult × CacheState :=
    match mapGet st.pending doc.key with
    | some pid => (RequestResult.promiseOf pid, st)
    | none =>
      let pid := st.scanCount
      (RequestResult.promiseOf pid,
        { st with pending := mapSet st.pending doc.key pid, scanCount := st.scanCount + 1 })

/-- The settlement continuations of the computation started by
`ensureColorData`: on success the cache is written and the pending entry
removed, and the promise resolves with the data; on failure only the pending
entry is removed and the error is rethrown to the awaiting caller. -/
def settle (st : CacheState) (doc : CacheDoc) (outcome : Except Unit Nat) :
    CacheState × Except Unit Nat :=
  match outcome with
  | .ok d =>
    ({ st with cache := mapSet st.cache doc.key (doc.version, d),
               pending := mapDelete st.pending doc.key }, .ok d)
  | .error e =>
    ({ st with pending := mapDelete st.pending doc.key }, .error e)

/-- Lookup after `mapSet` at the same key. -/
theorem mapGet_mapSet_self {κ β : Type} [DecidableEq κ] (m : List (κ × β)) (k : κ) (v : β) :
    mapGet (mapSet m k v) k = some v := by
  induction m with
  | nil => simp [mapSet, mapGet]
  | cons p rest ih =>
    by_cases h : p.1 = k
    · simp [mapSet, mapGet, h]
    · simp [mapSet, mapGet, h, ih]

/-- C3: with an eligible document, a first request on a cold key starts
exactly one scan and returns its promise; after the scan settles
successfully, a second request for the same document revision returns the
identical stored data object without starting another scan; and a second
request that arrives while the computation is still in flight receives the
very same stored promise, again without starting another scan. -/
theorem ensureColorData_caches_and_coalesces (st : CacheState) (doc : CacheDoc) (d : Nat)
    (hdec : doc.decorate = true)
    (hcache : mapGet st.cache doc.key = none)
    (hpending : mapGet st.pending doc.key = none) :
    (ensureRequest st doc).1 = RequestResult.promiseOf st.scanCount ∧
    (ensureRequest st doc).2.scanCount = st.scanCount + 1 ∧
    (ensureRequest (settle (ensureRequest st doc).2 doc (.ok d)).1 doc).1 =
      RequestResult.value d ∧
    (ensureRequest (settle (ensureRequest st doc).2 doc (.ok d)).1 doc).2.scanCount =
      st.scanCount + 1 ∧
    (ensureRequest (ensureRequest st doc).2 doc).1 = RequestResult.promiseOf st.scanCount ∧
    (ensureRequest (ensureRequest st doc).2 doc).2.scanCount = st.scanCount + 1 := by
  have hreq : ensureRequest st doc =
      (RequestResult.promiseOf st.scanCount,
        { st with pending := mapSet st.pending doc.key st.scanCount,
                  scanCount := st.scanCount + 1 }) := by
    simp [ensureRequest, hdec, hcache, ensureRequest.ensureRequestMiss, hpending]
  refine ⟨by rw [hreq], by rw [hreq], ?_, ?_, ?_, ?_⟩
  · rw [hreq]
    simp [settle, ensureRequest, hdec, mapGet_mapSet_self]
  · rw [hreq]
    simp [settle, ensureRequest, hdec, mapGet_mapSet_self]
  · rw [hreq]
    simp [ensureRequest, hdec, hcache, ensureRequest.ensureRequestMiss, mapGet_mapSet_self]
  · rw [hreq]
    simp [ensureRequest, hdec, hcache, ensureRequest.ensureRequestMiss, mapGet_mapSet_self]

/-- C3 witness: the scenario run from the empty state on a concrete document. -/
theorem ensureColorData_caches_and_coalesces_witness :
    (ensureRequest ⟨[], [], 0⟩ ⟨"file:a.css", 7, true⟩).1 = RequestResult.promiseOf 0 ∧
    (ensureRequest ⟨[], [], 0⟩ ⟨"file:a.css", 7, true⟩).2.scanCount = 1 ∧
    (ensureRequest (settle (ensureRequest ⟨[], [], 0⟩ ⟨"file:a.css", 7, true⟩).2
        ⟨"file:a.css", 7, true⟩ (.ok 5)).1 ⟨"file:a.css", 7, true⟩).1 =
      RequestResult.value 5 ∧
    (ensureRequest (settle (ensureRequest ⟨[], [], 0⟩ ⟨"file:a.css", 7, true⟩).2
        ⟨"file:a.css", 7, true⟩ (.ok 5)).1 ⟨"file:a.css", 7, true⟩).2.scanCount = 1 ∧
    (ensureRequest (ensureRequest ⟨[], [], 0⟩ ⟨"file:a.css", 7, true⟩).2
        ⟨"file:a.css", 7, true⟩).1 = RequestResult.promiseOf 0 ∧
    (ensureRequest (ensureRequest ⟨[], [], 0⟩ ⟨"file:a.css", 7, true⟩).2
        ⟨"file:a.css", 7, true⟩).2.scanCount = 1 :=
  ensureColorData_caches_and_coalesces ⟨[], [], 0⟩ ⟨"file:a.css", 7, true⟩ 5
    (by decide) (by decide) (by decide)

/-- Lookup after `mapDelete` at the deleted key. -/
theorem mapGet_mapDelete_self {κ β : Type} [DecidableEq κ] (m : List (κ × β)) (k : κ) :
    mapGet (mapDelete m k) k = none := by
  induction m with
  | nil => rfl
  | cons p rest ih =>
    by_cases h : p.1 = k
    · simpa [mapDelete, mapGet, h] using ih
    · simpa [mapDelete, mapGet, h] using ih

/-- `ensureRequest` never writes the cache for an eligible document. -/
theorem ensureRequest_cache_unchanged (st : CacheState) (doc : CacheDoc)
    (hdec : doc.decorate = true) :
    (ensureRequest st doc).2.cache = st.cache := by
  simp only [ensureRequest, hdec, Bool.not_true]
  cases h : mapGet st.cache doc.key with
  | none =>
    simp only [ensureRequest.ensureRequestMiss]
    cases mapGet st.pending doc.key <;> simp
  | some vd =>
    obtain ⟨v, d⟩ := vd
    by_cases hv : v = doc.version
    · simp [hv]
    · simp only [hv, ensureRequest.ensureRequestMiss]
      cases mapGet st.pending doc.key <;> simp [hv]

/-- C4: if the scan computation for an eligible document fails, the cache
entry for that document is exactly what it was before the request (the cache
is only ever written in the success continuation), the pending entry is
removed, and the failure is rethrown to the caller of that request. -/
theorem ensureColorData_failure_preserves_cache (st : CacheState) (doc : CacheDoc)
    (e : Unit) (hdec : doc.decorate = true) :
    mapGet (settle (ensureRequest st doc).2 doc (.error e)).1.cache doc.key =
      mapGet st.cache doc.key ∧
    mapGet (settle (ensureRequest st doc).2 doc (.error e)).1.pending doc.key = none ∧
    (settle (ensureRequest st doc).2 doc (.error e)).2 = .error e := by
  refine ⟨?_, ?_, rfl⟩
  · simp [settle, ensureRequest_cache_unchanged st doc hdec]
  · simp [settle, mapGet_mapDelete_self]

/-- C4 witness: a failing scan on a concrete warm cache leaves the old entry. -/
theorem ensureColorData_failure_preserves_cache_witness :
    mapGet (settle (ensureRequest ⟨[("file:a.css", (3, 9))], [], 1⟩
        ⟨"file:a.css", 7, true⟩).2 ⟨"file:a.css", 7, true⟩ (.error ())).1.cache "file:a.css" =
      mapGet ([("file:a.css", (3, 9))] : List (String × (Int × Nat))) "file:a.css" ∧
    mapGet (settle (ensureRequest ⟨[("file:a.css", (3, 9))], [], 1⟩
        ⟨"file:a.css", 7, true⟩).2 ⟨"file:a.css", 7, true⟩ (.error ())).1.pending "file:a.css" =
      none ∧
    (settle (ensureRequest ⟨[("file:a.css", (3, 9))], [], 1⟩
        ⟨"file:a.css", 7, true⟩).2 ⟨"file:a.css", 7, true⟩ (.error ())).2 = .error () :=
  ensureColorData_failure_preserves_cache ⟨[("file:a.css", (3, 9))], [], 1⟩
    ⟨"file:a.css", 7, true⟩ () (by decide)

/-!  `findContainingSelector` (claim C8). -/

/-- JS `String.prototype.lastIndexOf` for a single character, `-1` as `none`. -/
def jsLastIndexOf (l : List Char) (c : Char) : Option Nat :=
  match l with
  | [] => none
  | a :: as =>
    match jsLastIndexOf as c with
    | some j => some (j + 1)
    | none => if a = c then some 0 else none

/-- JS `String.prototype.split` on a separator character. -/
def splitOnChar (sep : Char) : List Char → List (List Char)
  | [] => [[]]
  | c :: t =>
    let r := splitOnChar sep t
    if c = sep then [] :: r
    else
      match r with
      | [] => [[c]]
      | h :: t' => (c :: h) :: t'

/-- Helper for whitespace collapsing: `prevSpace` tracks a pending run. -/
def collapseWsAux (prevSpace : Bool) : List Char → List Char
  | [] => []
  | c :: t =>
    if isJsSpace c then
      if prevSpace then collapseWsAux true t else ' ' :: collapseWsAux true t
    else c :: collapseWsAux false t

/-- JS `replace(/\s+/g, ' ')`: every maximal whitespace run becomes one space. -/
def collapseWs (l : List Char) : List Char := collapseWsAux false l

/-- The source's inline test on a trimmed candidate line:
`line && !line.startsWith('/*') && !line.endsWith('*/')`. -/
def goodSelectorLine (line : List Char) : Bool :=
  !line.isEmpty && !(("/*".data).isPrefixOf line) && !(("*/".data).isSuffixOf line)

/-- The source's backward `for` loop over the candidate lines (passed here
already reversed): first acceptable line, whitespace-collapsed and trimmed. -/
def selectorLoop : List (List Char) → List Char
  | [] => ":root".data
  | ln :: rest =>
    let line := jsTrim ln
    if goodSelectorLine line then jsTrim (collapseWs line) else selectorLoop rest

/-- `findContainingSelector` from the source: nearest `{` before the match
position via `lastIndexOf` (matched or not), then the nearest preceding
acceptable line; `:root` when there is no brace at all. -/
def findContainingSelector (text : List Char) (varIndex : Nat) : List Char :=
  let beforeVar := text.take varIndex
  match jsLastIndexOf beforeVar '{' with
  | none => ":root".data
  | some lastOpenBrace =>
    let beforeBrace := text.take lastOpenBrace
    let lines := splitOnChar '\n' beforeBrace
    selectorLoop lines.reverse

/-- Index (in the un-reversed prefix) of the first occurrence of `c` in a
reversed prefix — i.e. the greatest index of `c` in the prefix. -/
def revFindIdx (c : Char) : List Char → Option Nat
  | [] => none
  | a :: t => if a = c then some t.length else revFindIdx c t

/-- Modelled from the claim's words: searching backward from the match
position for the nearest **unmatched** `{`, counting close braces. -/
def unmatchedBraceIdx (depth : Nat) : List Char → Option Nat
  | [] => none
  | a :: t =>
    if a = '}' then unmatchedBraceIdx (depth + 1) t
    else if a = '{' then (if depth = 0 then some t.length else unmatchedBraceIdx (depth - 1) t)
    else unmatchedBraceIdx depth t

/-- Selector from a brace position: nearest preceding acceptable line of the
text before the brace (whitespace-collapsed), `:root` when there is none. -/
def selectorFromBrace (text : List Char) (braceIdx : Option Nat) : List Char :=
  match braceIdx with
  | none => ":root".data
  | some j =>
    let lines := splitOnChar '\n' (text.take j)
    match lines.reverse.find? (fun ln => goodSelectorLine (jsTrim ln)) with
    | some ln => jsTrim (collapseWs (jsTrim ln))
    | none => ":root".data

/-- The claim's selector rule as stated (nearest *unmatched* brace). -/
def claimedContainingSelector (text : List Char) (varIndex : Nat) : List Char :=
  selectorFromBrace text (unmatchedBraceIdx 0 (text.take varIndex).reverse)

/-- The amended selector rule: nearest `{` before the position, matched or
not (the only change the code forces on the claim). -/
def amendedContainingSelector (text : List Char) (varIndex : Nat) : List Char :=
  selectorFromBrace text (revFindIdx '{' (text.take varIndex).reverse)

/-- `revFindIdx` distributes over append from the right. -/
theorem revFindIdx_append (c : Char) (xs ys : List Char) :
    revFindIdx c (xs ++ ys) =
      match revFindIdx c xs with
      | some j => some (j + ys.length)
      | none => revFindIdx c ys := by
  induction xs with
  | nil => simp [revFindIdx]
  | cons a t ih =>
    by_cases h : a = c
    · simp [revFindIdx, h, List.length_append]
    · simp only [List.cons_append, revFindIdx, h, if_false, List.append_eq, ih]

/-- JS `lastIndexOf` is the backward search over the reversed string. -/
theorem jsLastIndexOf_eq_revFindIdx (l : List Char) (c : Char) :
    jsLastIndexOf l c = revFindIdx c l.reverse := by
  induction l with
  | nil => rfl
  | cons a t ih =>
    simp only [jsLastIndexOf, ih, List.reverse_cons, revFindIdx_append]
    cases revFindIdx c t.reverse with
    | none => simp [revFindIdx]
    | some j => simp [revFindIdx]

/-- The source's backward line loop is `find?` over the reversed line list. -/
theorem selectorLoop_eq_find (ls : List (List Char)) :
    selectorLoop ls =
      match ls.find? (fun ln => goodSelectorLine (jsTrim ln)) with
      | some ln => jsTrim (collapseWs (jsTrim ln))
      | none => ":root".data := by
  induction ls with
  | nil => rfl
  | cons ln rest ih =>
    by_cases h : goodSelectorLine (jsTrim ln)
    · simp [selectorLoop, h, List.find?_cons]
    · have hf : goodSelectorLine (jsTrim ln) = false := by simpa using h
      simp [selectorLoop, hf, List.find?_cons, ih]

/-- C8 counterexample: in `".a { x: y; }\n--b: red;"`, the declaration
`--b: red;` at offset 13 has no *unmatched* `{` before it, so the claim's rule
yields `:root`; the code's `lastIndexOf('{')` finds the already-closed brace
of `.a { … }` and yields `.a`. -/
theorem findContainingSelector_matched_brace_diverges :
    findContainingSelector ".a { x: y; }\n--b: red;".data 13 = ".a".data ∧
    claimedContainingSelector ".a { x: y; }\n--b: red;".data 13 = ":root".data ∧
    findContainingSelector ".a { x: y; }\n--b: red;".data 13 ≠
      claimedContainingSelector ".a { x: y; }\n--b: red;".data 13 := by
  refine ⟨by decide, by decide, by decide⟩

/-- C8 (amended): for every text and match position, the enclosing selector is
computed by searching backward for the nearest `{` — **matched or not** — and
then taking the nearest preceding non-empty, non-comment line
(whitespace-collapsed); with no brace before the match it is `:root`. -/
theorem findContainingSelector_amended (text : List Char) (varIndex : Nat) :
    findContainingSelector text varIndex = amendedContainingSelector text varIndex := by
  simp only [findContainingSelector, amendedContainingSelector]
  rw [jsLastIndexOf_eq_revFindIdx]
  cases h : revFindIdx '{' (text.take varIndex).reverse with
  | none => simp [selectorFromBrace]
  | some j => simp [selectorFromBrace, selectorLoop_eq_find]

/-!  The CSS-variable registry and `resolveNestedVariables` (claim C1). -/

/-- `CSSVariableDeclaration` from the source (host-independent fields: the
`uri`/`line` location metadata is not read by the resolution logic). -/
structure CSSVariableDeclaration where
  name : List Char
  value : List Char
  selector : List Char
  context : CSSVariableContext
deriving DecidableEq, Repr

/-- The `cssVariableRegistry` map: variable name → declarations. -/
abbrev Registry := List (List Char × List CSSVariableDeclaration)

/-- `\w` of JS regexes: `[A-Za-z0-9_]`. -/
def isWordChar (c : Char) : Bool :=
  ('a' ≤ c && c ≤ 'z') || ('A' ≤ c && c ≤ 'Z') || ('0' ≤ c && c ≤ '9') || c = '_'

/-- One attempt of `/var\(\s*(--[\w-]+)\s*\)/` anchored at the head: returns
(whole match, captured name, remaining input).  The character classes at each
boundary are disjoint, so the match is deterministic. -/
def varRefAt (l : List Char) : Option (List Char × List Char × List Char) :=
  if ("var(".data).isPrefixOf l then
    let r1 := l.drop 4
    let sp1 := r1.takeWhile isJsSpace
    let r2 := r1.dropWhile isJsSpace
    match r2 with
    | '-' :: '-' :: r3 =>
      let body := r3.takeWhile (fun c => isWordChar c || c = '-')
      if body.isEmpty then none
      else
        let r4 := r3.drop body.length
        let sp2 := r4.takeWhile isJsSpace
        let r5 := r4.dropWhile isJsSpace
        match r5 with
        | ')' :: rest =>
          some ("var(".data ++ sp1 ++ '-' :: '-' :: body ++ sp2 ++ [')'],
            '-' :: '-' :: body, rest)
        | _ => none
    | _ => none
  else none

/-- All matches of `/var\(...\)/g` over a string, left to right and
non-overlapping (fuelled by the string length: every step consumes at least
one character). -/
def findVarRefsAux : Nat → List Char → List (List Char × List Char)
  | 0, _ => []
  | _ + 1, [] => []
  | fuel + 1, l@(_ :: t) =>
    match varRefAt l with
    | some (full, name, rest) => (full, name) :: findVarRefsAux fuel rest
    | none => findVarRefsAux fuel t

/-- Matches of the `var()` pattern, as `(whole match, variable name)` pairs. -/
def findVarRefs (l : List Char) : List (List Char × List Char) :=
  findVarRefsAux l.length l

/-- JS `String.prototype.replace` with a plain-string pattern: first
occurrence only.  (`$`-substitution patterns in the replacement are not
modelled; no value handled by the resolver contains `$`.) -/
def replaceFirst (s pat rep : List Char) : List Char :=
  if pat.isPrefixOf s then rep ++ s.drop pat.length
  else
    match s with
    | [] => []
    | c :: t => c :: replaceFirst t pat rep

/-- Stable insertion used by the specificity sort. -/
def insertBySpec (d : CSSVariableDeclaration) :
    List CSSVariableDeclaration → List CSSVariableDeclaration
  | [] => [d]
  | e :: t =>
    if d.context.specificity < e.context.specificity then d :: e :: t
    else e :: insertBySpec d t

/-- The source's `.sort((a, b) => a.context.specificity - b.context.specificity)`:
a stable ascending sort by specificity. -/
def sortBySpecificity (l : List CSSVariableDeclaration) : List CSSVariableDeclaration :=
  l.foldr insertBySpec []

/-- The `while ((match = varPattern.exec(value)))` loop body of
`resolveNestedVariables`, over the precomputed match list: the cycle guard
returns the *original* value for the whole call; an unresolvable name is
skipped; otherwise the nested value is resolved recursively (through `recur`)
and substituted for the first occurrence of the match text. -/
def goMatches (recur : List Char → List (List Char) → Option (List Char))
    (reg : Registry) (orig : List Char) :
    List (List Char × List Char) → List Char → List (List Char) → Option (List Char)
  | [], acc, _ => some acc
  | (full, name) :: rest, acc, visited =>
    if name ∈ visited then some orig
    else
      match mapGet reg name with
      | none => goMatches recur reg orig rest acc visited
      | some [] => goMatches recur reg orig rest acc visited
      | some (d :: ds) =>
        match sortBySpecificity (d :: ds) with
        | [] => goMatches recur reg orig rest acc visited
        | nestedDecl :: _ =>
          match recur nestedDecl.value (name :: visited) with
          | none => none
          | some nestedResolved =>
            goMatches recur reg orig rest (replaceFirst acc full nestedResolved) visited

/-- `resolveNestedVariables` from the source, with an explicit recursion-depth
budget `fuel`: each nested `var()` expansion consumes one unit, and the call
returns `none` only when the budget is exhausted.  The cycle guard makes a
budget of (number of distinct registered names) always sufficient, which is
what claim C1 asserts for the two-name registry. -/
def resolveNestedVariables (reg : Registry) : Nat → List Char → List (List Char) → Option (List Char)
  | 0, value, visited =>
    goMatches (fun _ _ => none) reg value (findVarRefs value) value visited
  | n + 1, value, visited =>
    goMatches (resolveNestedVariables reg n) reg value (findVarRefs value) value visited

/-- C1: in any registry where `--a` is declared exactly as `var(--b)` and
`--b` exactly as `var(--a)`, resolving `--a`'s value terminates within a
recursion-depth budget of 2 (= the number of distinct registered names; the
visited set grows on every nested expansion) and returns the original
unexpanded value `var(--b)`. -/
theorem resolveNestedVariables_cycle (reg : Registry)
    (dA dB : CSSVariableDeclaration) (fuel : Nat)
    (hA : mapGet reg "--a".data = some [dA])
    (hB : mapGet reg "--b".data = some [dB])
    (hAv : dA.value = "var(--b)".data)
    (hBv : dB.value = "var(--a)".data)
    (hfuel : 2 ≤ fuel) :
    resolveNestedVariables reg fuel "var(--b)".data [] = some "var(--b)".data := by
  have hfind_b : findVarRefs "var(--b)".data = [("var(--b)".data, "--b".data)] := by decide
  have hfind_a : findVarRefs "var(--a)".data = [("var(--a)".data, "--a".data)] := by decide
  have hrepl_a : replaceFirst "var(--a)".data "var(--a)".data "var(--b)".data =
      "var(--b)".data := by decide
  have hrepl_b : replaceFirst "var(--b)".data "var(--b)".data "var(--b)".data =
      "var(--b)".data := by decide
  have hmem0 : ¬ ("--b".data ∈ ([] : List (List Char))) := by simp
  have hmem1 : ¬ ("--a".data ∈ ["--b".data]) := by decide
  have hmem2 : "--b".data ∈ ["--a".data, "--b".data] := by decide
  -- innermost call: the cycle guard fires before any recursion, at any budget
  have hinner : ∀ m, resolveNestedVariables reg m "var(--b)".data ["--a".data, "--b".data] =
      some "var(--b)".data := by
    intro m
    have hg : ∀ (recur : List Char → List (List Char) → Option (List Char)),
        goMatches recur reg "var(--b)".data [("var(--b)".data, "--b".data)]
          "var(--b)".data ["--a".data, "--b".data] = some "var(--b)".data := by
      intro recur
      show (if "--b".data ∈ ["--a".data, "--b".data] then some "var(--b)".data else _) = _
      rw [if_pos hmem2]
    cases m with
    | zero => rw [resolveNestedVariables, hfind_b, hg]
    | succ k => rw [resolveNestedVariables, hfind_b, hg]
  -- middle call: expands --a once, then the guard stops the chain
  have hmid : ∀ m, resolveNestedVariables reg (m + 1) "var(--a)".data ["--b".data] =
      some "var(--b)".data := by
    intro m
    rw [resolveNestedVariables, hfind_a]
    show (if "--a".data ∈ ["--b".data] then some "var(--a)".data else _) = _
    rw [if_neg hmem1]
    rw [hA]
    show (match sortBySpecificity [dA] with
      | [] => goMatches (resolveNestedVariables reg m) reg "var(--a)".data [] "var(--a)".data
          ["--b".data]
      | nestedDecl :: _ =>
        match resolveNestedVariables reg m nestedDecl.value ("--a".data :: ["--b".data]) with
        | none => none
        | some nestedResolved =>
          goMatches (resolveNestedVariables reg m) reg "var(--a)".data []
            (replaceFirst "var(--a)".data "var(--a)".data nestedResolved) ["--b".data]) = _
    show (match resolveNestedVariables reg m dA.value ("--a".data :: ["--b".data]) with
      | none => none
      | some nestedResolved =>
        goMatches (resolveNestedVariables reg m) reg "var(--a)".data []
          (replaceFirst "var(--a)".data "var(--a)".data nestedResolved) ["--b".data]) = _
    rw [hAv, hinner m]
    show goMatches (resolveNestedVariables reg m) reg "var(--a)".data []
        (replaceFirst "var(--a)".data "var(--a)".data "var(--b)".data) ["--b".data] = _
    rw [hrepl_a]
    rfl
  obtain ⟨n, rfl⟩ : ∃ n, fuel = n + 2 := ⟨fuel - 2, by omega⟩
  rw [resolveNestedVariables, hfind_b]
  show (if "--b".data ∈ ([] : List (List Char)) then some "var(--b)".data else _) = _
  rw [if_neg hmem0]
  rw [hB]
  show (match resolveNestedVariables reg (n + 1) dB.value ("--b".data :: []) with
    | none => none
    | some nestedResolved =>
      goMatches (resolveNestedVariables reg (n + 1)) reg "var(--b)".data []
        (replaceFirst "var(--b)".data "var(--b)".data nestedResolved) []) = _
  rw [hBv, hmid n]
  show goMatches (resolveNestedVariables reg (n + 1)) reg "var(--b)".data []
      (replaceFirst "var(--b)".data "var(--b)".data "var(--b)".data) [] = _
  rw [hrepl_b]
  rfl

/-- C1 witness: the exact two-declaration registry of the claim, resolved with
budget 2 (= number of distinct registered names). -/
theorem resolveNestedVariables_cycle_witness :
    resolveNestedVariables
      [("--a".data, [⟨"--a".data, "var(--b)".data, ":root".data, analyzeContext ":root".data⟩]),
       ("--b".data, [⟨"--b".data, "var(--a)".data, ":root".data, analyzeContext ":root".data⟩])]
      2 "var(--b)".data [] = some "var(--b)".data :=
  resolveNestedVariables_cycle
    [("--a".data, [⟨"--a".data, "var(--b)".data, ":root".data, analyzeContext ":root".data⟩]),
     ("--b".data, [⟨"--b".data, "var(--a)".data, ":root".data, analyzeContext ":root".data⟩])]
    ⟨"--a".data, "var(--b)".data, ":root".data, analyzeContext ":root".data⟩
    ⟨"--b".data, "var(--a)".data, ":root".data, analyzeContext ":root".data⟩
    2 (by decide) (by decide) (by decide) (by decide) (by decide)

/-!  Color values and serialization (`rgbaString`, `hexString`, `hslString`,
`tailwindString`, `formatColorByFormat`) — claims C5, C9, C10. -/

/-- `vscode.Color`: four channels, no validation performed by the host type. -/
structure VscodeColor where
  red : JSNum
  green : JSNum
  blue : JSNum
  alpha : JSNum
deriving DecidableEq, Repr

/-- `ParsedColor` from the source. -/
structure ParsedColor where
  vscodeColor : VscodeColor
  cssString : List Char
  formatPriority : List ColorFormat
deriving DecidableEq, Repr

/-- Digit character for bases up to 16 (`0-9`, then lowercase `a-f`), as JS
number-to-string conversion produces. -/
def natDigitChar (n : Nat) : Char :=
  if n < 10 then Char.ofNat (48 + n) else Char.ofNat (87 + n)

/-- Digits of `n` in base `b`, most significant first, with explicit fuel. -/
def natToBase (b : Nat) : Nat → Nat → List Char
  | 0, _ => []
  | f + 1, n => if n < b then [natDigitChar n] else natToBase b f (n / b) ++ [natDigitChar (n % b)]

/-- Decimal digits of a natural number. -/
def natToStr10 (n : Nat) : List Char := natToBase 10 (n + 1) n

/-- Lowercase hexadecimal digits of a natural number (JS `toString(16)`). -/
def natToStr16 (n : Nat) : List Char := natToBase 16 (n + 1) n

/-- Rendering of a non-negative rational whose denominator divides 100, as JS
renders such numbers (`1` → `1`, `0.5` → `0.5`, `0.25` → `0.25`).  All values
reaching the serializers are of this shape (integers from `Math.round`,
2-decimal values from the `round`/`toFixed(2)` helpers); other denominators
take an explicit fraction fallback that no embedded call site produces. -/
def ratToStrNN (q : ℚ) : List Char :=
  if q.den = 1 then natToStr10 q.num.toNat
  else if (ratMul q 10).den = 1 then
    let k := (ratMul q 10).num.toNat
    natToStr10 (k / 10) ++ '.' :: natToStr10 (k % 10)
  else if (ratMul q 100).den = 1 then
    let k := (ratMul q 100).num.toNat
    natToStr10 (k / 100) ++ '.' ::
      (if k % 100 < 10 then '0' :: natToStr10 (k % 100) else natToStr10 (k % 100))
  else natToStr10 q.num.toNat ++ '/' :: natToStr10 q.den

/-- JS template interpolation `${x}` for the numbers the serializers build. -/
def jsNumToString (x : JSNum) : List Char :=
  match x with
  | JSNum.nan => "NaN".data
  | JSNum.inf => "Infinity".data
  | JSNum.negInf => "-Infinity".data
  | JSNum.num q => if q < 0 then '-' :: ratToStrNN (-q) else ratToStrNN q

/-- JS `x.toString(16)` for the (integral) values `Math.round` produces. -/
def jsToStringRadix16 (x : JSNum) : List Char :=
  match x with
  | JSNum.nan => "NaN".data
  | JSNum.inf => "Infinity".data
  | JSNum.negInf => "-Infinity".data
  | JSNum.num q =>
    if q < 0 then '-' :: natToStr16 (Rat.floor (-q)).toNat
    else natToStr16 (Rat.floor q).toNat

/-- JS `padStart(2, '0')`. -/
def padStart2 (l : List Char) : List Char :=
  if l.length < 2 then List.replicate (2 - l.length) '0' ++ l else l

/-- Two forced decimal digits. -/
def pad2Digits (n : Nat) : List Char :=
  if n < 10 then '0' :: natToStr10 n else natToStr10 n

/-- JS `x.toFixed(2)` (round half away from zero on the magnitude). -/
def toFixed2 (x : JSNum) : List Char :=
  match x with
  | JSNum.nan => "NaN".data
  | JSNum.inf => "Infinity".data
  | JSNum.negInf => "-Infinity".data
  | JSNum.num q =>
    if q < 0 then
      let n := (Rat.floor (ratAdd (ratMul (-q) 100) (mkRat 1 2))).toNat
      '-' :: natToStr10 (n / 100) ++ '.' :: pad2Digits (n % 100)
    else
      let n := (Rat.floor (ratAdd (ratMul q 100) (mkRat 1 2))).toNat
      natToStr10 (n / 100) ++ '.' :: pad2Digits (n % 100)

/-- `Number(x.toFixed(2))` as a number: two-decimal rounding, half away from
zero (this is `toFixed`'s rounding, which differs from `Math.round` only at
negative half-ties). -/
def roundTo2 (x : JSNum) : JSNum :=
  match x with
  | JSNum.nan => JSNum.nan
  | JSNum.inf => JSNum.inf
  | JSNum.negInf => JSNum.negInf
  | JSNum.num q =>
    if q < 0 then JSNum.num (-(mkRat (Rat.floor (ratAdd (ratMul (-q) 100) (mkRat 1 2))) 100))
    else JSNum.num (mkRat (Rat.floor (ratAdd (ratMul q 100) (mkRat 1 2))) 100)

/-- `rgbaString` from the source: `rgb(r, g, b)` when alpha (rounded to two
decimals) is exactly 1 and not forced, `rgba(r, g, b, a)` otherwise. -/
def rgbaString (color : VscodeColor) (forceAlpha : Bool) : List Char :=
  let r := JSNum.round (mul color.red 255)
  let g := JSNum.round (mul color.green 255)
  let b := JSNum.round (mul color.blue 255)
  let a := roundTo2 color.alpha
  if !forceAlpha && seq a (JSNum.num 1) then
    "rgb(".data ++ jsNumToString r ++ ", ".data ++ jsNumToString g ++ ", ".data ++
      jsNumToString b ++ [')']
  else
    "rgba(".data ++ jsNumToString r ++ ", ".data ++ jsNumToString g ++ ", ".data ++
      jsNumToString b ++ ", ".data ++ jsNumToString a ++ [')']

/-- `hexString` from the source: rounded channels as 2-digit lowercase hex,
alpha appended only when requested. -/
def hexString (color : VscodeColor) (includeAlpha : Bool) : List Char :=
  let r := padStart2 (jsToStringRadix16 (JSNum.round (mul color.red 255)))
  let g := padStart2 (jsToStringRadix16 (JSNum.round (mul color.green 255)))
  let b := padStart2 (jsToStringRadix16 (JSNum.round (mul color.blue 255)))
  let base := '#' :: (r ++ g ++ b)
  if !includeAlpha then base
  else base ++ padStart2 (jsToStringRadix16 (JSNum.round (mul color.alpha 255)))

/-- `hslToRgb` from the source: the standard six-segment hue construction,
over JS numbers (so `NaN` propagates exactly as the comparisons dictate). -/
def hslToRgb (h s l : JSNum) : JSNum × JSNum × JSNum :=
  let h := JSNum.div h 360
  let s := JSNum.div s 100
  let l := JSNum.div l 100
  if seq s (JSNum.num 0) then
    let c := JSNum.round (mul l 255)
    (c, c, c)
  else
    let q := if lt l (JSNum.num (mkRat 1 2)) then mul l (add (JSNum.num 1) s)
      else sub (add l s) (mul l s)
    let p := sub (mul (JSNum.num 2) l) q
    let r := hue2rgb p q (add h (JSNum.num (mkRat 1 3)))
    let g := hue2rgb p q h
    let b := hue2rgb p q (sub h (JSNum.num (mkRat 1 3)))
    (JSNum.round (mul r 255), JSNum.round (mul g 255), JSNum.round (mul b 255))
where
  /-- The inner `hue2rgb` closure. -/
  hue2rgb (p q t : JSNum) : JSNum :=
    let t := if lt t (JSNum.num 0) then add t (JSNum.num 1) else t
    let t := if lt (JSNum.num 1) t then sub t (JSNum.num 1) else t
    if lt t (JSNum.num (mkRat 1 6)) then add p (mul (mul (sub q p) (JSNum.num 6)) t)
    else if lt t (JSNum.num (mkRat 1 2)) then q
    else if lt t (JSNum.num (mkRat 2 3)) then
      add p (mul (mul (sub q p) (sub (JSNum.num (mkRat 2 3)) t)) (JSNum.num 6))
    else p

/-- `rgbToHsl` from the source (inputs are channel×255 values). -/
def rgbToHsl (r g b : JSNum) : JSNum × JSNum × JSNum :=
  let r := JSNum.div r 255
  let g := JSNum.div g 255
  let b := JSNum.div b 255
  let maxc := max2 r (max2 g b)
  let minc := min2 r (min2 g b)
  let l := JSNum.div (add maxc minc) 2
  let hs : JSNum × JSNum :=
    if seq maxc minc then (JSNum.num 0, JSNum.num 0)
    else
      let d := sub maxc minc
      let s := if lt (JSNum.num (mkRat 1 2)) l then
          JSNum.div d (sub (sub (JSNum.num 2) maxc) minc)
        else JSNum.div d (add maxc minc)
      let h :=
        if seq maxc r then
          JSNum.div (add (JSNum.div (sub g b) d) (if lt g b then JSNum.num 6 else JSNum.num 0))
            6
        else if seq maxc g then JSNum.div (add (JSNum.div (sub b r) d) (JSNum.num 2)) 6
        else if seq maxc b then JSNum.div (add (JSNum.div (sub r g) d) (JSNum.num 4)) 6
        else JSNum.num 0
      (h, s)
  (mul hs.1 360, mul hs.2 100, mul l 100)

/-- `hslString` from the source. -/
def hslString (color : VscodeColor) (forceAlpha : Bool) : List Char :=
  let hsl := rgbToHsl (mul color.red 255) (mul color.green 255) (mul color.blue 255)
  let base := jsNumToString (round2 hsl.1) ++ ' ' :: jsNumToString (round2 hsl.2.1) ++
    '%' :: ' ' :: jsNumToString (round2 hsl.2.2) ++ ['%']
  if !forceAlpha && seq color.alpha (JSNum.num 1) then
    "hsl(".data ++ base ++ [')']
  else
    "hsla(".data ++ base ++ ' ' :: '/' :: ' ' :: toFixed2 color.alpha ++ [')']

/-- `tailwindString` from the source. -/
def tailwindString (color : VscodeColor) : List Char :=
  let hsl := rgbToHsl (mul color.red 255) (mul color.green 255) (mul color.blue 255)
  let base := jsNumToString (round2 hsl.1) ++ ' ' :: jsNumToString (round2 hsl.2.1) ++
    '%' :: ' ' :: jsNumToString (round2 hsl.2.2) ++ ['%']
  if seq color.alpha (JSNum.num 1) then base
  else base ++ ' ' :: '/' :: ' ' :: toFixed2 color.alpha

/-- `formatColorByFormat` from the source: plain `hex`/`rgb`/`hsl` refuse
colors whose alpha is not exactly 1. -/
def formatColorByFormat (color : VscodeColor) (format : ColorFormat) : Option (List Char) :=
  match format with
  | .hex => if seq color.alpha (JSNum.num 1) then some (hexString color false) else none
  | .hexAlpha => some (hexString color true)
  | .rgb => if seq color.alpha (JSNum.num 1) then some (rgbaString color false) else none
  | .rgba => some (rgbaString color true)
  | .hsl => if seq color.alpha (JSNum.num 1) then some (hslString color false) else none
  | .hsla => some (hslString color true)
  | .tailwind => some (tailwindString color)

/-!  The color parser (`parseColor` and helpers). -/

/-- Case-insensitive prefix test against a lowercase pattern (regex `i` flag). -/
def startsWithCI (l : List Char) (pat : List Char) : Bool :=
  toLowerList (l.take pat.length) = pat

/-- The test `^#([0-9a-f]{3,4}|[0-9a-f]{6}|[0-9a-f]{8})$` with the `i` flag. -/
def hexRegexMatch (l : List Char) : Bool :=
  match l with
  | '#' :: rest =>
    rest.all (fun c => (hexVal? c).isSome) &&
      (rest.length = 3 || rest.length = 4 || rest.length = 6 || rest.length = 8)
  | _ => false

/-- `normalizeHex` from the source: 3/4-digit forms are channel-doubled (in
their original case), 6/8-digit forms are lowercased; other lengths refused. -/
def normalizeHex (value : List Char) : Option (List Char) :=
  let text := if value.head? = some '#' then value.drop 1 else value
  if text.length = 3 ∨ text.length = 4 then
    some ('#' :: text.flatMap (fun ch => [ch, ch]))
  else if text.length = 6 ∨ text.length = 8 then
    some ('#' :: toLowerList text)
  else none

/-- Two hex digits to a channel value (`parseInt(_, 16)`). -/
def hexPairVal (a b : Char) : Option Nat :=
  match hexVal? a, hexVal? b with
  | some d1, some d2 => some (16 * d1 + d2)
  | _, _ => none

/-- The hex branch of `parseColorToVSCode`:
`^#([0-9a-f]{2})([0-9a-f]{2})([0-9a-f]{2})([0-9a-f]{2})?$/i`. -/
def hexBranchVS (l : List Char) : Option VscodeColor :=
  match l with
  | '#' :: c1 :: c2 :: c3 :: c4 :: c5 :: c6 :: rest =>
    match hexPairVal c1 c2, hexPairVal c3 c4, hexPairVal c5 c6 with
    | some r, some g, some b =>
      match rest with
      | [] =>
        some ⟨JSNum.div (JSNum.num r) 255, JSNum.div (JSNum.num g) 255,
          JSNum.div (JSNum.num b) 255, JSNum.num 1⟩
      | [c7, c8] =>
        match hexPairVal c7 c8 with
        | some a =>
          some ⟨JSNum.div (JSNum.num r) 255, JSNum.div (JSNum.num g) 255,
            JSNum.div (JSNum.num b) 255, JSNum.div (JSNum.num a) 255⟩
        | none => none
      | _ => none
    | _, _, _ => none
  | _ => none

/-- Greedy run of decimal digits, at least one (`[0-9]+`). -/
def digitRun (l : List Char) : Option (List Char × List Char) :=
  let ds := l.takeWhile isAsciiDigit
  if ds.isEmpty then none else some (ds, l.drop ds.length)

/-- Greedy run of digits and dots, at least one (`[0-9.]+`). -/
def digitDotRun (l : List Char) : Option (List Char × List Char) :=
  let ds := l.takeWhile (fun c => isAsciiDigit c || c = '.')
  if ds.isEmpty then none else some (ds, l.drop ds.length)

/-- The rgb branch of `parseColorToVSCode`:
`^rgba?\(\s*([0-9]+)\s*,\s*([0-9]+)\s*,\s*([0-9]+)\s*(?:,\s*([0-9.]+)\s*)?\)$/i`. -/
def rgbBranchVS (l : List Char) : Option VscodeColor :=
  let inner? : Option (List Char) :=
    if startsWithCI l "rgba(".data then some (l.drop 5)
    else if startsWithCI l "rgb(".data then some (l.drop 4)
    else none
  match inner? with
  | none => none
  | some m0 =>
    let m1 := m0.dropWhile isJsSpace
    match digitRun m1 with
    | none => none
    | some (d1, m2) =>
      let m3 := m2.dropWhile isJsSpace
      match m3 with
      | ',' :: m4 =>
        let m5 := m4.dropWhile isJsSpace
        match digitRun m5 with
        | none => none
        | some (d2, m6) =>
          let m7 := m6.dropWhile isJsSpace
          match m7 with
          | ',' :: m8 =>
            let m9 := m8.dropWhile isJsSpace
            match digitRun m9 with
            | none => none
            | some (d3, m10) =>
              let m11 := m10.dropWhile isJsSpace
              let finish (aPart : Option (List Char)) : Option VscodeColor :=
                let a : JSNum := match aPart with
                  | some t => parseFloatJS t
                  | none => JSNum.num 1
                some ⟨JSNum.div (JSNum.num (digitsToNat d1)) 255,
                  JSNum.div (JSNum.num (digitsToNat d2)) 255,
                  JSNum.div (JSNum.num (digitsToNat d3)) 255, a⟩
              match m11 with
              | [')'] => finish none
              | ',' :: m12 =>
                let m13 := m12.dropWhile isJsSpace
                match digitDotRun m13 with
                | none => none
                | some (d4, m14) =>
                  match m14.dropWhile isJsSpace with
                  | [')'] => finish (some d4)
                  | _ => none
              | _ => none
          | _ => none
      | _ => none

/-- The hsl branch of `parseColorToVSCode`:
`^hsla?\(\s*([0-9.]+)\s+([0-9.]+)%\s+([0-9.]+)%\s*(?:\/\s*([0-9.]+)\s*)?\)$/i`. -/
def hslBranchVS (l : List Char) : Option VscodeColor :=
  let inner? : Option (List Char) :=
    if startsWithCI l "hsla(".data then some (l.drop 5)
    else if startsWithCI l "hsl(".data then some (l.drop 4)
    else none
  match inner? with
  | none => none
  | some m0 =>
    let m1 := m0.dropWhile isJsSpace
    match digitDotRun m1 with
    | none => none
    | some (hPart, m2) =>
      let sp1 := m2.takeWhile isJsSpace
      let m3 := m2.dropWhile isJsSpace
      if sp1.isEmpty then none
      else
        match digitDotRun m3 with
        | none => none
        | some (sPart, m4) =>
          match m4 with
          | '%' :: m5 =>
            let sp2 := m5.takeWhile isJsSpace
            let m6 := m5.dropWhile isJsSpace
            if sp2.isEmpty then none
            else
              match digitDotRun m6 with
              | none => none
              | some (lPart, m7) =>
                match m7 with
                | '%' :: m8 =>
                  let m9 := m8.dropWhile isJsSpace
                  let finish (aPart : Option (List Char)) : Option VscodeColor :=
                    let h := parseFloatJS hPart
                    let s := parseFloatJS sPart
                    let lv := parseFloatJS lPart
                    let a : JSNum := match aPart with
                      | some t => parseFloatJS t
                      | none => JSNum.num 1
                    let rgb := hslToRgb h s lv
                    some ⟨JSNum.div rgb.1 255, JSNum.div rgb.2.1 255,
                      JSNum.div rgb.2.2 255, a⟩
                  match m9 with
                  | [')'] => finish none
                  | '/' :: m10 =>
                    let m11 := m10.dropWhile isJsSpace
                    match digitDotRun m11 with
                    | none => none
                    | some (d4, m12) =>
                      match m12.dropWhile isJsSpace with
                      | [')'] => finish (some d4)
                      | _ => none
                  | _ => none
                | _ => none
          | _ => none

/-- `parseColorToVSCode` from the source: hex, then functional rgb, then
functional hsl; `undefined` otherwise. -/
def parseColorToVSCode (colorValue : List Char) : Option VscodeColor :=
  match hexBranchVS colorValue with
  | some c => some c
  | none =>
    match rgbBranchVS colorValue with
    | some c => some c
    | none => hslBranchVS colorValue

/-- Argument splitting shared by `parseRgbFunction`/`parseHslFunction`:
`/` and `,` become spaces, then split on whitespace runs (the `.map(trim)`
and `.filter(length > 0)` of the source are built into the run splitting:
tokens are the maximal non-whitespace runs). -/
def splitArgsAux (cur : List Char) : List Char → List (List Char)
  | [] => if cur.isEmpty then [] else [cur.reverse]
  | c :: t =>
    if isJsSpace c then
      if cur.isEmpty then splitArgsAux [] t else cur.reverse :: splitArgsAux [] t
    else splitArgsAux (c :: cur) t

/-- The separator normalisation plus whitespace split. -/
def splitArgs (inner : List Char) : List (List Char) :=
  splitArgsAux []
    (inner.map (fun c => if c = '/' then ' ' else if c = ',' then ' ' else c))

/-- The regex `^rgba?\((.*)\)$` (`.` matches no line terminator): the text
between the function head and a final `)`, provided it contains no newline. -/
def functionInner (l : List Char) (short long : List Char) : Option (List Char) :=
  let body? : Option (List Char) :=
    if startsWithCI l long then some (l.drop long.length)
    else if startsWithCI l short then some (l.drop short.length)
    else none
  match body? with
  | none => none
  | some body =>
    match body.reverse with
    | ')' :: revInner =>
      let inner := revInner.reverse
      if inner.all (fun c => c ≠ '\n' ∧ c ≠ '\r') then some inner else none
    | _ => none

/-- `normalizeRgbComponent` from the source. -/
def normalizeRgbComponent (value : List Char) : Option JSNum :=
  if ['%'].isSuffixOf value then
    let percent := clamp (parseFloatJS value) 0 100
    some (JSNum.round (mul (JSNum.div percent 100) 255))
  else
    let numeric := jsNumber value
    if numeric.isNaN then none
    else some (clamp (JSNum.round numeric) 0 255)

/-- `parseRgbFunction` from the source. -/
def parseRgbFunction (raw : List Char) : Option ParsedColor :=
  match functionInner raw "rgb(".data "rgba(".data with
  | none => none
  | some inner =>
    match splitArgs inner with
    | rPart :: gPart :: bPart :: rest =>
      let aPart := rest.head?
      match normalizeRgbComponent rPart, normalizeRgbComponent gPart,
          normalizeRgbComponent bPart with
      | some r, some g, some b =>
        let a := normalizeAlpha aPart
        let color : VscodeColor :=
          ⟨JSNum.div r 255, JSNum.div g 255, JSNum.div b 255, a⟩
        let hasAlphaOriginal := containsSub (toLowerList raw) "rgba".data ||
          aPart.isSome || raw.contains '/'
        let originalFormat : ColorFormat := if hasAlphaOriginal then .rgba else .rgb
        some ⟨color, rgbaString color false, getFormatPriority originalFormat⟩
      | _, _, _ => none
    | _ => none

/-- `parseHslFunction` from the source. -/
def parseHslFunction (raw : List Char) : Option ParsedColor :=
  match functionInner raw "hsl(".data "hsla(".data with
  | none => none
  | some inner =>
    match splitArgs inner with
    | hPart :: sPart :: lPart :: rest =>
      let aPart := rest.head?
      let h := clamp (parseFloatJS hPart) 0 360
      let s := clamp (parseFloatJS (replaceFirst sPart ['%'] [])) 0 100
      let lv := clamp (parseFloatJS (replaceFirst lPart ['%'] [])) 0 100
      let a := normalizeAlpha aPart
      let rgb := hslToRgb h s lv
      let color : VscodeColor :=
        ⟨JSNum.div rgb.1 255, JSNum.div rgb.2.1 255, JSNum.div rgb.2.2 255, a⟩
      let hasAlphaOriginal := containsSub (toLowerList raw) "hsla".data ||
        aPart.isSome || raw.contains '/'
      let originalFormat : ColorFormat := if hasAlphaOriginal then .hsla else .hsl
      some ⟨color, rgbaString color false, getFormatPriority originalFormat⟩
    | _ => none

/-- A number of the tailwind regex: `[0-9]+(\.[0-9]+)?` (the fractional part
is taken only when at least one digit follows the dot). -/
def twNum (l : List Char) : Option (List Char × List Char) :=
  match digitRun l with
  | none => none
  | some (ds, rest) =>
    match rest with
    | '.' :: r2 =>
      let fs := r2.takeWhile isAsciiDigit
      if fs.isEmpty then some (ds, rest)
      else some (ds ++ '.' :: fs, r2.drop fs.length)
    | _ => some (ds, rest)

/-- The end-anchored alpha alternative of the tailwind regex:
`(0?\.\d+|1(?:\.0+)?)$`. -/
def twAlphaEnd (l : List Char) : Bool :=
  match l with
  | '.' :: ds => !ds.isEmpty && ds.all isAsciiDigit
  | '0' :: '.' :: ds => !ds.isEmpty && ds.all isAsciiDigit
  | ['1'] => true
  | '1' :: '.' :: zs => !zs.isEmpty && zs.all (fun c => c = '0')
  | _ => false

/-- The bare-triple ("tailwind") regex of `parseColor`:
`^(\d+(\.\d+)?)\s+(\d+(\.\d+)?)%\s+(\d+(\.\d+)?)%(\s*\/\s*(0?\.\d+|1(\.0+)?))?$`,
returning the four captured texts. -/
def parseTailwindTriple (l : List Char) :
    Option (List Char × List Char × List Char × Option (List Char)) :=
  match twNum l with
  | none => none
  | some (t1, m1) =>
    let sp1 := m1.takeWhile isJsSpace
    let m2 := m1.dropWhile isJsSpace
    if sp1.isEmpty then none
    else
      match twNum m2 with
      | none => none
      | some (t2, m3) =>
        match m3 with
        | '%' :: m4 =>
          let sp2 := m4.takeWhile isJsSpace
          let m5 := m4.dropWhile isJsSpace
          if sp2.isEmpty then none
          else
            match twNum m5 with
            | none => none
            | some (t3, m6) =>
              match m6 with
              | '%' :: m7 =>
                match m7 with
                | [] => some (t1, t2, t3, none)
                | _ =>
                  let m8 := m7.dropWhile isJsSpace
                  match m8 with
                  | '/' :: m9 =>
                    let m10 := m9.dropWhile isJsSpace
                    if twAlphaEnd m10 then some (t1, t2, t3, some m10) else none
                  | _ => none
              | _ => none
        | _ => none

/-- `parseColor` from the source: hex, functional rgb, functional hsl, then
the bare compact triple; `undefined` otherwise. -/
def parseColor (raw : List Char) : Option ParsedColor :=
  let text := jsTrim raw
  if hexRegexMatch text then
    match normalizeHex text with
    | none => none
    | some normalized =>
      match parseColorToVSCode normalized with
      | none => none
      | some color =>
        let sanitized := if text.head? = some '#' then text.drop 1 else text
        let hasAlpha := sanitized.length = 4 ∨ sanitized.length = 8
        let originalFormat : ColorFormat := if hasAlpha then .hexAlpha else .hex
        some ⟨color, rgbaString color false, getFormatPriority originalFormat⟩
  else if startsWithCI text "rgb(".data || startsWithCI text "rgba(".data then
    parseRgbFunction text
  else if startsWithCI text "hsl(".data || startsWithCI text "hsla(".data then
    parseHslFunction text
  else
    match parseTailwindTriple text with
    | none => none
    | some (t1, t2, t3, aGroup) =>
      let h := clamp (jsNumber t1) 0 360
      let s := clamp (jsNumber t2) 0 100
      let lv := clamp (jsNumber t3) 0 100
      let alpha := normalizeAlpha aGroup
      let rgb := hslToRgb h s lv
      let color : VscodeColor :=
        ⟨JSNum.div rgb.1 255, JSNum.div rgb.2.1 255, JSNum.div rgb.2.2 255, alpha⟩
      some ⟨color, rgbaString color false, getFormatPriority .tailwind⟩

/-!  `provideColorPresentations` (claim C10). -/

/-- `provideColorPresentations` from the source, reduced to the produced
replacement strings (the host `ColorPresentation`/`TextEdit` wrappers carry no
further logic). -/
def provideColorPresentations (color : VscodeColor) (originalText : List Char) :
    List (List Char) :=
  match parseColor originalText with
  | none => []
  | some parsed =>
    let formattedValues := parsed.formatPriority.filterMap
      (fun format => formatColorByFormat color format)
    let uniqueValues := jsSetDedup formattedValues
    if uniqueValues.isEmpty then [rgbaString color true] else uniqueValues

/-- Every successful parse carries one of the fixed priority lists. -/
theorem parseColor_priority_shape (raw : List Char) (p : ParsedColor)
    (h : parseColor raw = some p) :
    ∃ fmt, p.formatPriority = getFormatPriority fmt := by
  simp only [parseColor] at h
  split at h
  · (repeat' split at h) <;>
      first
        | exact Option.noConfusion h
        | (rw [Option.some_inj] at h; subst h; dsimp only; exact ⟨_, rfl⟩)
  · split at h
    · simp only [parseRgbFunction] at h
      (repeat' split at h) <;>
        first
          | exact Option.noConfusion h
          | (rw [Option.some_inj] at h; subst h; dsimp only; exact ⟨_, rfl⟩)
    · split at h
      · simp only [parseHslFunction] at h
        (repeat' split at h) <;>
          first
            | exact Option.noConfusion h
            | (rw [Option.some_inj] at h; subst h; dsimp only; exact ⟨_, rfl⟩)
      · (repeat' split at h) <;>
          first
            | exact Option.noConfusion h
            | (rw [Option.some_inj] at h; subst h; dsimp only; exact ⟨_, rfl⟩)

/-- `rgba` occurs in every priority list. -/
theorem rgba_mem_getFormatPriority (fmt : ColorFormat) :
    ColorFormat.rgba ∈ getFormatPriority fmt := by cases fmt <;> decide

/-- `jsSetDedup` of a non-empty list is non-empty. -/
theorem jsSetDedup_ne_nil {α : Type} [DecidableEq α] (l : List α) (h : l ≠ []) :
    jsSetDedup l ≠ [] := by
  cases l with
  | nil => exact absurd rfl h
  | cons a t => simp [jsSetDedup, jsSetDedupAux]

/-- C10: whenever the original span text parses, the presentation list is
non-empty — every priority list contains `rgba` and the `rgba` serializer is
total, so the filtered value list is non-empty and the forced-`rgba` fallback
branch is never taken. -/
theorem provideColorPresentations_nonempty (color : VscodeColor)
    (originalText : List Char) (parsed : ParsedColor)
    (h : parseColor originalText = some parsed) :
    jsSetDedup (parsed.formatPriority.filterMap
      (fun format => formatColorByFormat color format)) ≠ [] ∧
    provideColorPresentations color originalText ≠ [] := by
  obtain ⟨fmt, hfmt⟩ := parseColor_priority_shape originalText parsed h
  have hmem : ColorFormat.rgba ∈ parsed.formatPriority := by
    rw [hfmt]
    exact rgba_mem_getFormatPriority fmt
  have hval : formatColorByFormat color ColorFormat.rgba = some (rgbaString color true) := rfl
  have hne : parsed.formatPriority.filterMap
      (fun format => formatColorByFormat color format) ≠ [] := by
    intro hnil
    have : rgbaString color true ∈ parsed.formatPriority.filterMap
        (fun format => formatColorByFormat color format) :=
      List.mem_filterMap.mpr ⟨ColorFormat.rgba, hmem, hval⟩
    rw [hnil] at this
    exact absurd this (List.not_mem_nil _)
  refine ⟨jsSetDedup_ne_nil _ hne, ?_⟩
  have heq : provideColorPresentations color originalText =
      (if (jsSetDedup (parsed.formatPriority.filterMap
          (fun format => formatColorByFormat color format))).isEmpty
        then [rgbaString color true]
        else jsSetDedup (parsed.formatPriority.filterMap
          (fun format => formatColorByFormat color format))) := by
    simp only [provideColorPresentations, h]
  cases hdd : jsSetDedup (parsed.formatPriority.filterMap
      (fun format => formatColorByFormat color format)) with
  | nil => exact absurd hdd (jsSetDedup_ne_nil _ hne)
  | cons a t =>
    rw [heq, hdd]
    simp

/-- C10 witness: a concrete red color and original span `#ff0000`. -/
theorem provideColorPresentations_nonempty_witness :
    provideColorPresentations
      ⟨JSNum.num 1, JSNum.num 0, JSNum.num 0, JSNum.num 1⟩ "#ff0000".data ≠ [] :=
  (provideColorPresentations_nonempty
    ⟨JSNum.num 1, JSNum.num 0, JSNum.num 0, JSNum.num 1⟩ "#ff0000".data
    ⟨⟨JSNum.num 1, JSNum.num 0, JSNum.num 0, JSNum.num 1⟩, "rgb(255, 0, 0)".data,
      getFormatPriority ColorFormat.hex⟩ (by decide)).2

/-!  Channel bounds of `parseColor` (claim C9). -/

/-- A channel that is either `NaN` or a rational in `[0,1]`. -/
def chanOk (x : JSNum) : Prop :=
  x = JSNum.nan ∨ ∃ q, x = JSNum.num q ∧ 0 ≤ q ∧ q ≤ 1

/-- A value that is either `NaN` or a rational in `[lo,hi]`. -/
def rangeOk (lo hi : ℚ) (x : JSNum) : Prop :=
  x = JSNum.nan ∨ ∃ q, x = JSNum.num q ∧ lo ≤ q ∧ q ≤ hi

/-- C9 counterexample: `rgb(x%, 0, 0)` is accepted by `parseColor` (the `%`
component path never rejects), but its red channel is `NaN`, not a rational
in `[0,1]` — so not every accepted input has all four channels in `[0,1]`. -/
theorem parseColor_channel_claim_false :
    ¬ (∀ (s : List Char) (p : ParsedColor), parseColor s = some p →
      (∃ q, p.vscodeColor.red = JSNum.num q ∧ 0 ≤ q ∧ q ≤ 1) ∧
      (∃ q, p.vscodeColor.green = JSNum.num q ∧ 0 ≤ q ∧ q ≤ 1) ∧
      (∃ q, p.vscodeColor.blue = JSNum.num q ∧ 0 ≤ q ∧ q ≤ 1) ∧
      (∃ q, p.vscodeColor.alpha = JSNum.num q ∧ 0 ≤ q ∧ q ≤ 1)) := by
  intro hclaim
  have hred : (parseColor "rgb(x%, 0, 0)".data).map (fun p => p.vscodeColor.red) =
      some JSNum.nan := by decide
  cases hp : parseColor "rgb(x%, 0, 0)".data with
  | none => rw [hp] at hred; exact Option.noConfusion hred
  | some p =>
    rw [hp] at hred
    obtain ⟨q, hq, _, _⟩ := (hclaim _ p hp).1
    simp only [Option.map] at hred
    have h2 := Option.some.inj hred
    rw [hq] at h2
    exact JSNum.noConfusion h2

/-- `clamp` into a rational interval: the result is `NaN` exactly when the
input is, and otherwise lies in the interval. -/
theorem clamp_ok (x : JSNum) (lo hi : ℚ) (h : lo ≤ hi) :
    rangeOk lo hi (clamp x (JSNum.num lo) (JSNum.num hi)) := by
  cases x with
  | nan => exact Or.inl rfl
  | inf =>
    refine Or.inr ⟨hi, ?_, h, le_refl hi⟩
    show min2 (if JSNum.lt JSNum.inf (JSNum.num lo) = true then JSNum.num lo else JSNum.inf)
      (JSNum.num hi) = JSNum.num hi
    rfl
  | negInf =>
    refine Or.inr ⟨lo, ?_, le_refl lo, h⟩
    show min2 (if JSNum.lt JSNum.negInf (JSNum.num lo) = true then JSNum.num lo else JSNum.negInf)
      (JSNum.num hi) = JSNum.num lo
    show (if JSNum.lt (JSNum.num lo) (JSNum.num hi) = true then JSNum.num lo else JSNum.num hi) =
      JSNum.num lo
    rcases lt_or_le lo hi with h2 | h2
    · simp [JSNum.lt, h2]
    · simp [JSNum.lt, not_lt.mpr h2, le_antisymm h h2]
  | num q =>
    rw [clamp_num]
    exact Or.inr ⟨_, rfl, le_min (le_max_right q lo) h, min_le_right _ _⟩

/-- `Math.round` keeps a value inside an integer interval. -/
theorem round_range (x : JSNum) (lo hi : ℤ) (_hlh : (lo : ℚ) ≤ hi)
    (h : rangeOk lo hi x) : rangeOk lo hi (JSNum.round x) := by
  rcases h with rfl | ⟨q, rfl, hq1, hq2⟩
  · exact Or.inl rfl
  · rw [round_num_floor]
    refine Or.inr ⟨_, rfl, ?_, ?_⟩
    · exact_mod_cast Int.le_floor.mpr (by linarith)
    · have : (⌊q + 1/2⌋ : ℤ) ≤ hi := by
        rw [Int.floor_le_iff]
        linarith
      exact_mod_cast this

/-- `NaN` absorbs JS addition on the left. -/
theorem jsAdd_nan_left (x : JSNum) : JSNum.add JSNum.nan x = JSNum.nan := by
  cases x <;> rfl

/-- `NaN` absorbs JS multiplication on the left. -/
theorem jsMul_nan_left (x : JSNum) : JSNum.mul JSNum.nan x = JSNum.nan := by
  cases x <;> rfl

/-- `NaN` absorbs JS subtraction on the left. -/
theorem jsSub_nan_left (x : JSNum) : JSNum.sub JSNum.nan x = JSNum.nan := by
  cases x <;> rfl

/-- `NaN` absorbs JS addition on the right. -/
theorem jsAdd_nan_right (x : JSNum) : JSNum.add x JSNum.nan = JSNum.nan := by
  cases x <;> rfl

/-- `NaN` absorbs JS multiplication on the right. -/
theorem jsMul_nan_right (x : JSNum) : JSNum.mul x JSNum.nan = JSNum.nan := by
  cases x <;> rfl

/-- `NaN` absorbs JS subtraction on the right. -/
theorem jsSub_nan_right (x : JSNum) : JSNum.sub x JSNum.nan = JSNum.nan := by
  cases x <;> rfl

/-- Division of a `[0,M]`-or-`NaN` value by a positive rational constant. -/
theorem jsDiv_pos_ok (x : JSNum) (M c : ℚ) (hc : 0 < c) (h : rangeOk 0 M x) :
    rangeOk 0 (M / c) (JSNum.div x (JSNum.num c)) := by
  rcases h with rfl | ⟨q, rfl, hq1, hq2⟩
  · exact Or.inl rfl
  · rw [jsDiv_num_num _ _ (ne_of_gt hc)]
    refine Or.inr ⟨_, rfl, div_nonneg hq1 hc.le, ?_⟩
    exact (div_le_div_iff_of_pos_right hc).mpr hq2

/-- Scaling a `[0,1]`-or-`NaN` channel by 255 and rounding stays in `[0,255]`. -/
theorem roundMul255_ok (x : JSNum) (h : rangeOk 0 1 x) :
    rangeOk 0 255 (JSNum.round (JSNum.mul x (JSNum.num 255))) := by
  rcases h with rfl | ⟨q, rfl, hq1, hq2⟩
  · exact Or.inl rfl
  · rw [jsMul_num_num]
    refine round_range _ 0 255 (by norm_num) (Or.inr ⟨_, rfl, ?_, ?_⟩)
    · positivity
    · push_cast
      nlinarith

/-- The constant `mkRat 1 2` as a field quotient. -/
theorem mkRat_half : (mkRat 1 2 : ℚ) = 1/2 := by
  norm_num [Rat.mkRat_eq_divInt, Rat.divInt_eq_div]

/-- The constant `mkRat 1 3` as a field quotient. -/
theorem mkRat_third : (mkRat 1 3 : ℚ) = 1/3 := by
  norm_num [Rat.mkRat_eq_divInt, Rat.divInt_eq_div]

/-- The constant `mkRat 1 6` as a field quotient. -/
theorem mkRat_sixth : (mkRat 1 6 : ℚ) = 1/6 := by
  norm_num [Rat.mkRat_eq_divInt, Rat.divInt_eq_div]

/-- The constant `mkRat 2 3` as a field quotient. -/
theorem mkRat_twoThirds : (mkRat 2 3 : ℚ) = 2/3 := by
  norm_num [Rat.mkRat_eq_divInt, Rat.divInt_eq_div]

/-- `hue2rgb` with `NaN` endpoints is `NaN` whatever the hue argument. -/
theorem hue2rgb_nan_nan (t : JSNum) :
    hslToRgb.hue2rgb JSNum.nan JSNum.nan t = JSNum.nan := by
  simp only [hslToRgb.hue2rgb]
  split_ifs <;>
    simp only [jsSub_nan_left, jsMul_nan_left, jsAdd_nan_left]

/-- `hue2rgb` with a `NaN` hue returns the `p` endpoint. -/
theorem hue2rgb_nan_hue (p q : JSNum) :
    hslToRgb.hue2rgb p q JSNum.nan = p := rfl

set_option maxHeartbeats 1000000 in
/-- The six-segment hue construction keeps its value between `p` and `q` (and
hence in `[0,1]`) whenever the hue offset lies in `[-1/3, 4/3]`. -/
theorem hue2rgb_num_bounds (p q t : ℚ) (h0 : 0 ≤ p) (hpq : p ≤ q) (hq1 : q ≤ 1)
    (ht1 : -(1/3 : ℚ) ≤ t) (ht2 : t ≤ 4/3) :
    ∃ r, hslToRgb.hue2rgb (JSNum.num p) (JSNum.num q) (JSNum.num t) = JSNum.num r ∧
      0 ≤ r ∧ r ≤ 1 := by
  have hlt : ∀ a b : ℚ, JSNum.lt (JSNum.num a) (JSNum.num b) = decide (a < b) := fun _ _ => rfl
  have h1 : ((1 : JSNum) = JSNum.num 1) := rfl
  have h0j : ((0 : JSNum) = JSNum.num 0) := rfl
  have h6 : ((6 : JSNum) = JSNum.num 6) := rfl
  simp only [hslToRgb.hue2rgb, h1, h0j, h6, jsAdd_num_num, jsSub_num_num, jsMul_num_num,
    hlt, decide_eq_true_eq, mkRat_half, mkRat_third, mkRat_sixth, mkRat_twoThirds]
  split_ifs <;>
    (try simp only [jsAdd_num_num, jsSub_num_num, jsMul_num_num, hlt,
      decide_eq_true_eq] at *) <;>
    exact ⟨_, rfl, by nlinarith, by nlinarith⟩

/-- JS `<` with `NaN` on the left is `false`. -/
theorem jsLt_nan_left (x : JSNum) : JSNum.lt JSNum.nan x = false := by
  cases x <;> rfl

/-- One rounded hue component is in `[0,255]` for in-range `p`/`q` endpoints
and a hue argument that is `NaN` or in `[-1/3, 4/3]`. -/
theorem hue_comp_ok (pv qv : ℚ) (hp0 : 0 ≤ pv) (hpq : pv ≤ qv) (hq1 : qv ≤ 1)
    (tJ : JSNum)
    (htJ : tJ = JSNum.nan ∨ ∃ tq, tJ = JSNum.num tq ∧ -(1/3 : ℚ) ≤ tq ∧ tq ≤ 4/3) :
    rangeOk 0 255 (JSNum.round (JSNum.mul
      (hslToRgb.hue2rgb (JSNum.num pv) (JSNum.num qv) tJ) (JSNum.num 255))) := by
  rcases htJ with rfl | ⟨tq, rfl, ht1, ht2⟩
  · rw [hue2rgb_nan_hue]
    exact roundMul255_ok _ (Or.inr ⟨pv, rfl, hp0, hpq.trans hq1⟩)
  · obtain ⟨r, hr, hr0, hr1⟩ := hue2rgb_num_bounds pv qv tq hp0 hpq hq1 ht1 ht2
    rw [hr]
    exact roundMul255_ok _ (Or.inr ⟨r, rfl, hr0, hr1⟩)

set_option maxHeartbeats 1000000 in
/-- `hslToRgb` maps clamped (or `NaN`) h/s/l inputs to channels that are
`NaN` or integers in `[0,255]`. -/
theorem hslToRgb_ok (h s l : JSNum)
    (hh : rangeOk 0 360 h) (hs : rangeOk 0 100 s) (hl : rangeOk 0 100 l) :
    rangeOk 0 255 (hslToRgb h s l).1 ∧ rangeOk 0 255 (hslToRgb h s l).2.1 ∧
      rangeOk 0 255 (hslToRgb h s l).2.2 := by
  have h360 : ((360 : JSNum) = JSNum.num 360) := rfl
  have h100 : ((100 : JSNum) = JSNum.num 100) := rfl
  have hh1 : rangeOk 0 1 (JSNum.div h (JSNum.num 360)) := by
    have := jsDiv_pos_ok h 360 360 (by norm_num) hh
    norm_num at this
    exact this
  have hs1 : rangeOk 0 1 (JSNum.div s (JSNum.num 100)) := by
    have := jsDiv_pos_ok s 100 100 (by norm_num) hs
    norm_num at this
    exact this
  have hl1 : rangeOk 0 1 (JSNum.div l (JSNum.num 100)) := by
    have := jsDiv_pos_ok l 100 100 (by norm_num) hl
    norm_num at this
    exact this
  simp only [hslToRgb, h360, h100]
  generalize hH : JSNum.div h (JSNum.num 360) = h' at *
  generalize hS : JSNum.div s (JSNum.num 100) = s' at *
  generalize hL : JSNum.div l (JSNum.num 100) = l' at *
  by_cases hseq : seq s' (JSNum.num 0) = true
  · rw [if_pos hseq]
    exact ⟨roundMul255_ok _ hl1, roundMul255_ok _ hl1, roundMul255_ok _ hl1⟩
  · rw [if_neg hseq]
    rcases hs1 with rfl | ⟨qs, rfl, hqs0, hqs1⟩
    · -- s' = NaN: q and p are NaN, every hue component is NaN
      simp only [jsAdd_nan_right, jsMul_nan_right, jsSub_nan_left, jsSub_nan_right,
        jsMul_nan_left, jsAdd_nan_left, ite_self, hue2rgb_nan_nan]
      exact ⟨Or.inl rfl, Or.inl rfl, Or.inl rfl⟩
    · rcases hl1 with rfl | ⟨ql, rfl, hql0, hql1⟩
      · -- l' = NaN: again q and p are NaN
        simp only [jsLt_nan_left, Bool.false_eq_true, if_false, jsAdd_nan_left,
          jsSub_nan_left, jsMul_nan_right, jsSub_nan_right, jsMul_nan_left,
          hue2rgb_nan_nan]
        exact ⟨Or.inl rfl, Or.inl rfl, Or.inl rfl⟩
      · -- s' and l' finite: compute p and q and bound them
        have hlt : ∀ a b : ℚ, JSNum.lt (JSNum.num a) (JSNum.num b) = decide (a < b) :=
          fun _ _ => rfl
        have h1j : ((1 : JSNum) = JSNum.num 1) := rfl
        have h2j : ((2 : JSNum) = JSNum.num 2) := rfl
        simp only [hlt, h1j, h2j, jsAdd_num_num, jsSub_num_num, jsMul_num_num, mkRat_half,
          mkRat_third]
        by_cases hlq : ql < 1/2
        · rw [if_pos (by simpa using hlq)]
          simp only [jsSub_num_num, jsMul_num_num]
          have hcases : ∀ tJ : JSNum, tJ = JSNum.nan ∨
              (∃ tq, tJ = JSNum.num tq ∧ -(1/3 : ℚ) ≤ tq ∧ tq ≤ 4/3) →
              rangeOk 0 255 (JSNum.round (JSNum.mul (hslToRgb.hue2rgb
                (JSNum.num (2 * ql - ql * (1 + qs))) (JSNum.num (ql * (1 + qs))) tJ)
                (JSNum.num 255))) := by
            intro tJ htJ
            exact hue_comp_ok _ _ (by nlinarith) (by nlinarith) (by nlinarith) tJ htJ
          rcases hh1 with rfl | ⟨qh, rfl, hqh0, hqh1⟩
          · simp only [jsAdd_nan_left, jsSub_nan_left]
            exact ⟨hcases _ (Or.inl rfl), hcases _ (Or.inl rfl), hcases _ (Or.inl rfl)⟩
          · simp only [jsAdd_num_num, jsSub_num_num]
            exact ⟨hcases _ (Or.inr ⟨_, rfl, by linarith, by linarith⟩),
              hcases _ (Or.inr ⟨_, rfl, by linarith, by linarith⟩),
              hcases _ (Or.inr ⟨_, rfl, by linarith, by linarith⟩)⟩
        · rw [if_neg (by simpa using hlq)]
          simp only [jsSub_num_num, jsMul_num_num]
          have hcases : ∀ tJ : JSNum, tJ = JSNum.nan ∨
              (∃ tq, tJ = JSNum.num tq ∧ -(1/3 : ℚ) ≤ tq ∧ tq ≤ 4/3) →
              rangeOk 0 255 (JSNum.round (JSNum.mul (hslToRgb.hue2rgb
                (JSNum.num (2 * ql - (ql + qs - ql * qs)))
                (JSNum.num (ql + qs - ql * qs)) tJ) (JSNum.num 255))) := by
            intro tJ htJ
            exact hue_comp_ok _ _ (by nlinarith) (by nlinarith) (by nlinarith) tJ htJ
          rcases hh1 with rfl | ⟨qh, rfl, hqh0, hqh1⟩
          · simp only [jsAdd_nan_left, jsSub_nan_left]
            exact ⟨hcases _ (Or.inl rfl), hcases _ (Or.inl rfl), hcases _ (Or.inl rfl)⟩
          · simp only [jsAdd_num_num, jsSub_num_num]
            exact ⟨hcases _ (Or.inr ⟨_, rfl, by linarith, by linarith⟩),
              hcases _ (Or.inr ⟨_, rfl, by linarith, by linarith⟩),
              hcases _ (Or.inr ⟨_, rfl, by linarith, by linarith⟩)⟩

/-- Hex digits have value below 16. -/
theorem hexVal_lt16 (c : Char) (d : Nat) (h : hexVal? c = some d) : d < 16 := by
  unfold hexVal? at h
  split at h <;> first | exact Option.noConfusion h | (injection h with h2; omega)

/-- A hex pair is at most 255. -/
theorem hexPairVal_le (a b : Char) (k : Nat) (h : hexPairVal a b = some k) : k ≤ 255 := by
  unfold hexPairVal at h
  split at h
  · injection h with h2
    subst h2
    have h1 := hexVal_lt16 a _ (by assumption)
    have h2 := hexVal_lt16 b _ (by assumption)
    omega
  · exact Option.noConfusion h

/-- Dividing a `[0,255]`-or-`NaN` value by 255 gives a valid channel. -/
theorem div255_chanOk (x : JSNum) (h : rangeOk 0 255 x) :
    chanOk (JSNum.div x (JSNum.num 255)) := by
  have := jsDiv_pos_ok x 255 255 (by norm_num) h
  norm_num at this
  exact this

/-- An accepted rgb component is `NaN` or an integer in `[0,255]`. -/
theorem normalizeRgbComponent_ok (v : List Char) (x : JSNum)
    (h : normalizeRgbComponent v = some x) : rangeOk 0 255 x := by
  have h0j : ((0 : JSNum) = JSNum.num 0) := rfl
  have h100 : ((100 : JSNum) = JSNum.num 100) := rfl
  have h255 : ((255 : JSNum) = JSNum.num 255) := rfl
  unfold normalizeRgbComponent at h
  split at h
  · rw [Option.some_inj] at h
    subst h
    have hp : rangeOk 0 100 (clamp (parseFloatJS v) (JSNum.num 0) (JSNum.num 100)) :=
      clamp_ok _ _ _ (by norm_num)
    have hdiv : rangeOk 0 1 (JSNum.div (clamp (parseFloatJS v) (JSNum.num 0)
        (JSNum.num 100)) (JSNum.num 100)) := by
      have := jsDiv_pos_ok _ 100 100 (by norm_num) hp
      norm_num at this
      exact this
    rw [h0j, h100, h255]
    exact roundMul255_ok _ hdiv
  · dsimp only at h
    split at h
    · exact Option.noConfusion h
    · rw [Option.some_inj] at h
      subst h
      rw [h0j, h255]
      exact clamp_ok _ _ _ (by norm_num)

/-- `normalizeAlpha` always yields `NaN` or a rational in `[0,1]`. -/
theorem normalizeAlpha_ok (v : Option (List Char)) : rangeOk 0 1 (normalizeAlpha v) := by
  have h0j : ((0 : JSNum) = JSNum.num 0) := rfl
  have h1j : ((1 : JSNum) = JSNum.num 1) := rfl
  have h100 : ((100 : JSNum) = JSNum.num 100) := rfl
  unfold normalizeAlpha
  match v with
  | none => exact Or.inr ⟨1, rfl, by norm_num, le_refl 1⟩
  | some t =>
    simp only []
    split
    · rw [h0j, h100]
      have hp : rangeOk 0 100 (clamp (parseFloatJS (jsTrim t)) (JSNum.num 0)
          (JSNum.num 100)) := clamp_ok _ _ _ (by norm_num)
      have := jsDiv_pos_ok _ 100 100 (by norm_num) hp
      norm_num at this
      exact this
    · split
      · exact Or.inr ⟨1, rfl, by norm_num, le_refl 1⟩
      · rw [h0j, h1j]
        exact clamp_ok _ _ _ (by norm_num)

/-- Case-insensitive prefix fails on a mismatching first character. -/
theorem startsWithCI_cons_false (c : Char) (rest : List Char) (p : Char) (ps : List Char)
    (hne : asciiToLower c ≠ p) : startsWithCI (c :: rest) (p :: ps) = false := by
  simp only [startsWithCI, List.length_cons, List.take_succ_cons, toLowerList,
    List.map_cons, List.cons.injEq, decide_eq_false_iff_not]
  intro hcontra
  exact hne hcontra.1

/-- On a `#`-headed string, `parseColorToVSCode` is exactly its hex branch. -/
theorem parseColorToVSCode_hash (rest : List Char) :
    parseColorToVSCode ('#' :: rest) = hexBranchVS ('#' :: rest) := by
  unfold parseColorToVSCode
  cases hhex : hexBranchVS ('#' :: rest) with
  | some c => rfl
  | none =>
    have hr : rgbBranchVS ('#' :: rest) = none := by
      unfold rgbBranchVS
      rw [startsWithCI_cons_false '#' rest 'r' _ (by decide),
        startsWithCI_cons_false '#' rest 'r' _ (by decide)]
      rfl
    have hh : hslBranchVS ('#' :: rest) = none := by
      unfold hslBranchVS
      rw [startsWithCI_cons_false '#' rest 'h' _ (by decide),
        startsWithCI_cons_false '#' rest 'h' _ (by decide)]
      rfl
    rw [hr, hh]

/-- Channel bounds of the hex branch, and alpha 1 for 7-character inputs. -/
theorem hexBranchVS_ok (l : List Char) (c : VscodeColor) (h : hexBranchVS l = some c) :
    (chanOk c.red ∧ chanOk c.green ∧ chanOk c.blue ∧ chanOk c.alpha) ∧
      (l.length = 7 → c.alpha = JSNum.num 1) := by
  unfold hexBranchVS at h
  split at h
  case _ c1 c2 c3 c4 c5 c6 rest =>
    split at h
    case _ r g b hr hg hb =>
      have hr255 := hexPairVal_le _ _ _ hr
      have hg255 := hexPairVal_le _ _ _ hg
      have hb255 := hexPairVal_le _ _ _ hb
      have hchan : ∀ k : Nat, k ≤ 255 → chanOk (JSNum.div (JSNum.num k) (JSNum.num 255)) := by
        intro k hk
        refine div255_chanOk _ (Or.inr ⟨k, rfl, by positivity, by exact_mod_cast hk⟩)
      split at h
      · rw [Option.some_inj] at h
        subst h
        exact ⟨⟨hchan _ hr255, hchan _ hg255, hchan _ hb255,
          Or.inr ⟨1, rfl, by norm_num, le_refl 1⟩⟩, fun _ => rfl⟩
      case _ c7 c8 =>
        split at h
        case _ a ha =>
          have ha255 := hexPairVal_le _ _ _ ha
          rw [Option.some_inj] at h
          subst h
          refine ⟨⟨hchan _ hr255, hchan _ hg255, hchan _ hb255, hchan _ ha255⟩, ?_⟩
          intro hlen
          simp at hlen
        · exact Option.noConfusion h
      · exact Option.noConfusion h
    · exact Option.noConfusion h
  · exact Option.noConfusion h

/-- Channel bounds for `parseRgbFunction`, and alpha 1 when only three
arguments are present. -/
theorem parseRgbFunction_ok (raw : List Char) (p : ParsedColor)
    (h : parseRgbFunction raw = some p) :
    (chanOk p.vscodeColor.red ∧ chanOk p.vscodeColor.green ∧
      chanOk p.vscodeColor.blue ∧ chanOk p.vscodeColor.alpha) ∧
    (∀ inner r g b, functionInner raw "rgb(".data "rgba(".data = some inner →
      splitArgs inner = [r, g, b] → p.vscodeColor.alpha = JSNum.num 1) := by
  unfold parseRgbFunction at h
  split at h
  · exact Option.noConfusion h
  case _ inner0 hinner0 =>
    split at h
    case _ rPart gPart bPart rest hsplit0 =>
      split at h
      case _ r g b hr hg hb =>
        rw [Option.some_inj] at h
        subst h
        refine ⟨⟨div255_chanOk _ (normalizeRgbComponent_ok _ _ hr),
          div255_chanOk _ (normalizeRgbComponent_ok _ _ hg),
          div255_chanOk _ (normalizeRgbComponent_ok _ _ hb),
          normalizeAlpha_ok _⟩, ?_⟩
        intro inner r' g' b' hinner hsplit
        rw [hinner0] at hinner
        rw [Option.some_inj] at hinner
        subst hinner
        rw [hsplit0] at hsplit
        injection hsplit with h1 hsplit
        injection hsplit with h2 hsplit
        injection hsplit with h3 h4
        subst h4
        rfl
      · exact Option.noConfusion h
    · exact Option.noConfusion h

/-- Channel bounds for `parseHslFunction`, and alpha 1 when only three
arguments are present. -/
theorem parseHslFunction_ok (raw : List Char) (p : ParsedColor)
    (h : parseHslFunction raw = some p) :
    (chanOk p.vscodeColor.red ∧ chanOk p.vscodeColor.green ∧
      chanOk p.vscodeColor.blue ∧ chanOk p.vscodeColor.alpha) ∧
    (∀ inner hp sp lp, functionInner raw "hsl(".data "hsla(".data = some inner →
      splitArgs inner = [hp, sp, lp] → p.vscodeColor.alpha = JSNum.num 1) := by
  have h0j : ((0 : JSNum) = JSNum.num 0) := rfl
  have h100 : ((100 : JSNum) = JSNum.num 100) := rfl
  have h360 : ((360 : JSNum) = JSNum.num 360) := rfl
  unfold parseHslFunction at h
  split at h
  · exact Option.noConfusion h
  case _ inner0 hinner0 =>
    split at h
    case _ hPart sPart lPart rest hsplit0 =>
      rw [Option.some_inj] at h
      subst h
      have hok := hslToRgb_ok (clamp (parseFloatJS hPart) 0 360)
        (clamp (parseFloatJS (replaceFirst sPart ['%'] [])) 0 100)
        (clamp (parseFloatJS (replaceFirst lPart ['%'] [])) 0 100)
        (by rw [h0j, h360]; exact clamp_ok _ _ _ (by norm_num))
        (by rw [h0j, h100]; exact clamp_ok _ _ _ (by norm_num))
        (by rw [h0j, h100]; exact clamp_ok _ _ _ (by norm_num))
      refine ⟨⟨div255_chanOk _ hok.1, div255_chanOk _ hok.2.1, div255_chanOk _ hok.2.2,
        normalizeAlpha_ok _⟩, ?_⟩
      intro inner hp' sp' lp' hinner hsplit
      rw [hinner0] at hinner
      rw [Option.some_inj] at hinner
      subst hinner
      rw [hsplit0] at hsplit
      injection hsplit with h1 hsplit
      injection hsplit with h2 hsplit
      injection hsplit with h3 h4
      subst h4
      rfl
    · exact Option.noConfusion h

/-- Doubling every character doubles the length. -/
theorem flatMap_pair_length (l : List Char) :
    (l.flatMap (fun ch => [ch, ch])).length = 2 * l.length := by
  induction l with
  | nil => rfl
  | cons c t ih =>
    simp only [List.flatMap_cons, List.length_append, List.length_cons, List.length_nil, ih]
    omega

/-- `normalizeHex` always produces a `#`-headed string. -/
theorem normalizeHex_hash (v n : List Char) (h : normalizeHex v = some n) :
    ∃ body, n = '#' :: body := by
  unfold normalizeHex at h
  dsimp only at h
  split_ifs at h <;>
    first
      | exact Option.noConfusion h
      | (rw [Option.some_inj] at h; exact ⟨_, h.symm⟩)

/-- `normalizeHex` of a `#`-headed 3- or 6-digit body yields a 7-character
string. -/
theorem normalizeHex_hash_len (rest : List Char) (hlen : rest.length = 3 ∨ rest.length = 6) :
    ∃ body, normalizeHex ('#' :: rest) = some ('#' :: body) ∧ body.length = 6 := by
  unfold normalizeHex
  dsimp only
  have hdrop : (if ('#' :: rest).head? = some '#' then ('#' :: rest).drop 1
      else '#' :: rest) = rest := by simp
  rw [hdrop]
  rcases hlen with h3 | h6
  · rw [if_pos (Or.inl h3)]
    exact ⟨_, rfl, by rw [flatMap_pair_length, h3]⟩
  · rw [if_neg (by omega), if_pos (Or.inl h6)]
    exact ⟨_, rfl, by simp [toLowerList, h6]⟩

/-- `hexRegexMatch` only accepts `#`-headed strings. -/
theorem hexRegexMatch_shape (t : List Char) (h : hexRegexMatch t = true) :
    ∃ rest, t = '#' :: rest := by
  unfold hexRegexMatch at h
  split at h
  · next rest => exact ⟨rest, rfl⟩
  · exact Bool.noConfusion h

/-- A successful `functionInner` means one of the two prefixes matched. -/
theorem functionInner_prefix (l short long i : List Char)
    (h : functionInner l short long = some i) :
    startsWithCI l short = true ∨ startsWithCI l long = true := by
  unfold functionInner at h
  dsimp only at h
  split_ifs at h with h1 h2
  · exact Or.inr h1
  · exact Or.inl h2

/-- A case-insensitive prefix match exposes the lowered first character. -/
theorem startsWithCI_head_char (l : List Char) (p : Char) (ps : List Char)
    (h : startsWithCI l (p :: ps) = true) :
    ∃ c rest, l = c :: rest ∧ asciiToLower c = p := by
  unfold startsWithCI at h
  cases l with
  | nil => simp [toLowerList] at h
  | cons c rest =>
    refine ⟨c, rest, rfl, ?_⟩
    simp only [List.length_cons, List.take_succ_cons, toLowerList, List.map_cons,
      decide_eq_true_eq, List.cons.injEq] at h
    exact h.1

/-- C9 (amended): every channel of a color accepted by `parseColor` is either
a rational in `[0,1]` or `NaN` (a malformed-but-accepted percentage or hue
component propagates `NaN` into the stored channels — see the counterexample
— so `[0,1]` alone is not an invariant); and the alpha channel is exactly 1
whenever the source text has no alpha component, in each of the four
grammars: hex without an alpha nibble (3/6 digits), functional rgb with
exactly three arguments, functional hsl with exactly three arguments, and a
bare triple without a `/ alpha` part. -/
theorem parseColor_channels_spec :
    (∀ (s : List Char) (p : ParsedColor), parseColor s = some p →
      chanOk p.vscodeColor.red ∧ chanOk p.vscodeColor.green ∧
      chanOk p.vscodeColor.blue ∧ chanOk p.vscodeColor.alpha) ∧
    (∀ (s : List Char) (p : ParsedColor), parseColor s = some p →
      hexRegexMatch (jsTrim s) = true →
      ((jsTrim s).length = 4 ∨ (jsTrim s).length = 7) →
      p.vscodeColor.alpha = JSNum.num 1) ∧
    (∀ (s : List Char) (p : ParsedColor) (inner r g b : List Char),
      parseColor s = some p →
      functionInner (jsTrim s) "rgb(".data "rgba(".data = some inner →
      splitArgs inner = [r, g, b] →
      p.vscodeColor.alpha = JSNum.num 1) ∧
    (∀ (s : List Char) (p : ParsedColor) (inner hp sp lp : List Char),
      parseColor s = some p →
      hexRegexMatch (jsTrim s) = false →
      functionInner (jsTrim s) "hsl(".data "hsla(".data = some inner →
      splitArgs inner = [hp, sp, lp] →
      p.vscodeColor.alpha = JSNum.num 1) ∧
    (∀ (s : List Char) (p : ParsedColor) (t1 t2 t3 : List Char),
      parseColor s = some p →
      hexRegexMatch (jsTrim s) = false →
      startsWithCI (jsTrim s) "rgb(".data = false →
      startsWithCI (jsTrim s) "rgba(".data = false →
      startsWithCI (jsTrim s) "hsl(".data = false →
      startsWithCI (jsTrim s) "hsla(".data = false →
      parseTailwindTriple (jsTrim s) = some (t1, t2, t3, none) →
      p.vscodeColor.alpha = JSNum.num 1) := by
  have h0j : ((0 : JSNum) = JSNum.num 0) := rfl
  have h100 : ((100 : JSNum) = JSNum.num 100) := rfl
  have h360 : ((360 : JSNum) = JSNum.num 360) := rfl
  refine ⟨?_, ?_, ?_, ?_, ?_⟩
  · -- channel bounds
    intro s p h
    simp only [parseColor] at h
    split at h
    · -- hex branch
      split at h
      · exact Option.noConfusion h
      case _ normalized heqN =>
        split at h
        · exact Option.noConfusion h
        case _ color heqC =>
          rw [Option.some_inj] at h
          subst h
          obtain ⟨body, rfl⟩ := normalizeHex_hash _ _ heqN
          rw [parseColorToVSCode_hash] at heqC
          exact (hexBranchVS_ok _ _ heqC).1
    · split at h
      · exact (parseRgbFunction_ok _ _ h).1
      · split at h
        · exact (parseHslFunction_ok _ _ h).1
        · split at h
          · exact Option.noConfusion h
          case _ t1 t2 t3 aG heqT =>
            rw [Option.some_inj] at h
            subst h
            have hok := hslToRgb_ok (clamp (jsNumber t1) 0 360) (clamp (jsNumber t2) 0 100)
              (clamp (jsNumber t3) 0 100)
              (by rw [h0j, h360]; exact clamp_ok _ _ _ (by norm_num))
              (by rw [h0j, h100]; exact clamp_ok _ _ _ (by norm_num))
              (by rw [h0j, h100]; exact clamp_ok _ _ _ (by norm_num))
            exact ⟨div255_chanOk _ hok.1, div255_chanOk _ hok.2.1,
              div255_chanOk _ hok.2.2, normalizeAlpha_ok _⟩
  · -- hex without alpha nibble
    intro s p h hhex hlen
    simp only [parseColor] at h
    rw [if_pos hhex] at h
    obtain ⟨rest, hshape⟩ := hexRegexMatch_shape _ hhex
    rw [hshape] at h hlen
    have hrlen : rest.length = 3 ∨ rest.length = 6 := by
      simp only [List.length_cons] at hlen
      omega
    obtain ⟨body, hnorm, hblen⟩ := normalizeHex_hash_len rest hrlen
    rw [hnorm] at h
    dsimp only at h
    rw [parseColorToVSCode_hash] at h
    split at h
    · exact Option.noConfusion h
    case _ color heqC =>
      rw [Option.some_inj] at h
      subst h
      exact (hexBranchVS_ok _ _ heqC).2 (by simp [hblen])
  · -- functional rgb with three arguments
    intro s p inner r g b h hinner hsplit
    have hpre := functionInner_prefix _ _ _ _ hinner
    obtain ⟨c, rest, hshape, hc⟩ : ∃ c rest, jsTrim s = c :: rest ∧ asciiToLower c = 'r' := by
      rcases hpre with h1 | h1
      · exact startsWithCI_head_char _ _ _ h1
      · exact startsWithCI_head_char _ _ _ h1
    have hhexF : hexRegexMatch (jsTrim s) = false := by
      rw [hshape]
      unfold hexRegexMatch
      have : c ≠ '#' := by
        intro hcontra
        rw [hcontra] at hc
        exact absurd hc (by decide)
      split
      · next heq => exact absurd (List.cons.inj heq).1 this
      · rfl
    simp only [parseColor] at h
    rw [if_neg (by simp [hhexF])] at h
    rw [if_pos (by rcases hpre with h1 | h1 <;> simp [h1])] at h
    exact (parseRgbFunction_ok _ _ h).2 inner r g b hinner hsplit
  · -- functional hsl with three arguments
    intro s p inner hp sp lp h hhexF hinner hsplit
    have hpre := functionInner_prefix _ _ _ _ hinner
    obtain ⟨c, rest, hshape, hc⟩ : ∃ c rest, jsTrim s = c :: rest ∧ asciiToLower c = 'h' := by
      rcases hpre with h1 | h1
      · exact startsWithCI_head_char _ _ _ h1
      · exact startsWithCI_head_char _ _ _ h1
    have hrgbF : startsWithCI (jsTrim s) "rgb(".data = false ∧
        startsWithCI (jsTrim s) "rgba(".data = false := by
      constructor <;>
        (rw [hshape]
         exact startsWithCI_cons_false c rest 'r' _ (by rw [hc]; decide))
    simp only [parseColor] at h
    rw [if_neg (by simp [hhexF])] at h
    rw [if_neg (by simp [hrgbF.1, hrgbF.2])] at h
    rw [if_pos (by rcases hpre with h1 | h1 <;> simp [h1])] at h
    exact (parseHslFunction_ok _ _ h).2 inner hp sp lp hinner hsplit
  · -- bare triple without alpha group
    intro s p t1 t2 t3 h hhexF hr1 hr2 hh1 hh2 hT
    simp only [parseColor] at h
    rw [if_neg (by simp [hhexF])] at h
    rw [if_neg (by simp [hr1, hr2])] at h
    rw [if_neg (by simp [hh1, hh2])] at h
    rw [hT] at h
    rw [Option.some_inj] at h
    subst h
    rfl

/-- C9 witness: the channel-bound clause and the hex/rgb alpha-default
clauses instantiated on `#ff0000` and `rgb(1, 2, 3)`. -/
theorem parseColor_channels_spec_witness :
    (chanOk (JSNum.num 1) ∧ chanOk (JSNum.num 0) ∧ chanOk (JSNum.num 0) ∧
      chanOk (JSNum.num 1)) ∧
    JSNum.num 1 = JSNum.num 1 ∧ JSNum.num 1 = JSNum.num 1 :=
  ⟨parseColor_channels_spec.1 "#ff0000".data
      ⟨⟨JSNum.num 1, JSNum.num 0, JSNum.num 0, JSNum.num 1⟩, "rgb(255, 0, 0)".data,
        getFormatPriority ColorFormat.hex⟩ (by decide),
   parseColor_channels_spec.2.1 "#ff0000".data
      ⟨⟨JSNum.num 1, JSNum.num 0, JSNum.num 0, JSNum.num 1⟩, "rgb(255, 0, 0)".data,
        getFormatPriority ColorFormat.hex⟩ (by decide) (by decide) (by decide),
   parseColor_channels_spec.2.2.1 "rgb(1, 2, 3)".data
      ⟨⟨JSNum.num (mkRat 1 255), JSNum.num (mkRat 2 255), JSNum.num (mkRat 3 255),
          JSNum.num 1⟩, "rgb(1, 2, 3)".data, getFormatPriority ColorFormat.rgb⟩
      "1, 2, 3".data "1".data "2".data "3".data (by decide) (by decide) (by decide)⟩

/-!  Hex round-trip (claim C5). -/

/-- Facts about a recognised hex digit: its lowercase form has the same value,
its value renders back to that lowercase form, and it is not whitespace. -/
theorem hexVal_facts (c : Char) (d : Nat) (h : hexVal? c = some d) :
    hexVal? (asciiToLower c) = some d ∧ natDigitChar d = asciiToLower c ∧
      isJsSpace c = false := by
  unfold hexVal? at h
  split at h <;> first
    | exact Option.noConfusion h
    | (injection h with hd; subst hd; decide)

/-- A byte renders as exactly two lowercase hex digits after `padStart(2, '0')`. -/
theorem padStart2_natToStr16 (k : Nat) (hk : k < 256) :
    padStart2 (natToStr16 k) = [natDigitChar (k / 16), natDigitChar (k % 16)] := by
  by_cases h16 : k < 16
  · have hd : k / 16 = 0 := by omega
    have hm : k % 16 = k := by omega
    have h0 : natDigitChar 0 = '0' := by decide
    simp only [natToStr16, natToBase, if_pos h16, hd, hm, h0]
    simp [padStart2]
  · obtain ⟨f, hf⟩ : ∃ f, k = f + 1 := ⟨k - 1, by omega⟩
    have hrec : natToBase 16 k (k / 16) = [natDigitChar (k / 16)] := by
      have hlt : k / 16 < 16 := by omega
      rw [hf] at hlt ⊢
      simp [natToBase, hlt]
    simp only [natToStr16, natToBase, if_neg h16, hrec]
    simp [padStart2]

/-- `toString(16)` of a nonnegative integral JS number is `natToStr16`. -/
theorem jsToStringRadix16_natCast (k : Nat) :
    jsToStringRadix16 (JSNum.num (k : ℚ)) = natToStr16 k := by
  simp only [jsToStringRadix16]
  rw [if_neg (by simp : ¬((k : ℚ) < 0)), ratFloor_eq_intFloor]
  simp

/-- Dividing a natural channel value by 255, scaling back and rounding is the
identity. -/
theorem hex_channel_roundtrip (k : Nat) :
    JSNum.round (mul (JSNum.div (JSNum.num (k : ℚ)) 255) 255) = JSNum.num (k : ℚ) := by
  show JSNum.round (JSNum.mul (JSNum.div (JSNum.num (k : ℚ)) (JSNum.num 255))
    (JSNum.num 255)) = JSNum.num (k : ℚ)
  rw [jsDiv_num_num _ _ (by norm_num), jsMul_num_num,
    div_mul_cancel₀ _ (by norm_num : (255 : ℚ) ≠ 0), round_num_floor]
  congr 1
  have hfl : ⌊(k : ℚ) + 1/2⌋ = (k : ℤ) := by
    rw [show ((k : ℚ)) = (((k : ℤ) : ℚ)) by push_cast; ring, Int.floor_int_add]
    have : ⌊(1/2 : ℚ)⌋ = 0 := by
      rw [Int.floor_eq_zero_iff]
      norm_num [Set.mem_Ico]
    omega
  rw [hfl]
  push_cast
  ring

/-- The two-character hex rendering of a `k/255` channel recovers the two
digits of `k`. -/
theorem hexChannelStr (k : Nat) (hk : k < 256) :
    padStart2 (jsToStringRadix16 (JSNum.round (mul (JSNum.div (JSNum.num (k : ℚ)) 255) 255)))
      = [natDigitChar (k / 16), natDigitChar (k % 16)] := by
  rw [hex_channel_roundtrip, jsToStringRadix16_natCast, padStart2_natToStr16 k hk]

/-- C5: for every 6-digit hex string `#RRGGBB` (digits in either case),
`parseColor` succeeds with alpha exactly 1, and serializing the resulting
color in the `hex` format returns the input string lowercased. -/
theorem parseColor_hex_roundtrip (c1 c2 c3 c4 c5 c6 : Char) (d1 d2 d3 d4 d5 d6 : Nat)
    (h1 : hexVal? c1 = some d1) (h2 : hexVal? c2 = some d2) (h3 : hexVal? c3 = some d3)
    (h4 : hexVal? c4 = some d4) (h5 : hexVal? c5 = some d5) (h6 : hexVal? c6 = some d6) :
    (parseColor ['#', c1, c2, c3, c4, c5, c6]).map (fun p => p.vscodeColor.alpha)
        = some (JSNum.num 1) ∧
    (parseColor ['#', c1, c2, c3, c4, c5, c6]).map
        (fun p => formatColorByFormat p.vscodeColor ColorFormat.hex)
      = some (some (toLowerList ['#', c1, c2, c3, c4, c5, c6])) := by
  obtain ⟨hl1, hn1, hs1⟩ := hexVal_facts c1 d1 h1
  obtain ⟨hl2, hn2, hs2⟩ := hexVal_facts c2 d2 h2
  obtain ⟨hl3, hn3, hs3⟩ := hexVal_facts c3 d3 h3
  obtain ⟨hl4, hn4, hs4⟩ := hexVal_facts c4 d4 h4
  obtain ⟨hl5, hn5, hs5⟩ := hexVal_facts c5 d5 h5
  obtain ⟨hl6, hn6, hs6⟩ := hexVal_facts c6 d6 h6
  have hb1 := hexVal_lt16 c1 d1 h1
  have hb2 := hexVal_lt16 c2 d2 h2
  have hb3 := hexVal_lt16 c3 d3 h3
  have hb4 := hexVal_lt16 c4 d4 h4
  have hb5 := hexVal_lt16 c5 d5 h5
  have hb6 := hexVal_lt16 c6 d6 h6
  have h0 : isJsSpace '#' = false := by decide
  have htrim : jsTrim ['#', c1, c2, c3, c4, c5, c6] = ['#', c1, c2, c3, c4, c5, c6] := by
    simp [jsTrim, List.dropWhile_cons, List.dropWhile_nil, h0, hs1, hs2, hs3, hs4, hs5, hs6]
  have hmatch : hexRegexMatch ['#', c1, c2, c3, c4, c5, c6] = true := by
    simp [hexRegexMatch, h1, h2, h3, h4, h5, h6]
  have hnorm : normalizeHex ['#', c1, c2, c3, c4, c5, c6] =
      some ['#', asciiToLower c1, asciiToLower c2, asciiToLower c3, asciiToLower c4,
        asciiToLower c5, asciiToLower c6] := by
    simp [normalizeHex, toLowerList]
  have hp12 : hexPairVal (asciiToLower c1) (asciiToLower c2) = some (16 * d1 + d2) := by
    simp [hexPairVal, hl1, hl2]
  have hp34 : hexPairVal (asciiToLower c3) (asciiToLower c4) = some (16 * d3 + d4) := by
    simp [hexPairVal, hl3, hl4]
  have hp56 : hexPairVal (asciiToLower c5) (asciiToLower c6) = some (16 * d5 + d6) := by
    simp [hexPairVal, hl5, hl6]
  have hbranch : hexBranchVS ['#', asciiToLower c1, asciiToLower c2, asciiToLower c3,
      asciiToLower c4, asciiToLower c5, asciiToLower c6] =
      some ⟨JSNum.div (JSNum.num ((16 * d1 + d2 : ℕ) : ℚ)) 255,
        JSNum.div (JSNum.num ((16 * d3 + d4 : ℕ) : ℚ)) 255,
        JSNum.div (JSNum.num ((16 * d5 + d6 : ℕ) : ℚ)) 255, JSNum.num 1⟩ := by
    simp only [hexBranchVS, hp12, hp34, hp56]
  have hparse : parseColor ['#', c1, c2, c3, c4, c5, c6] =
      some ⟨⟨JSNum.div (JSNum.num ((16 * d1 + d2 : ℕ) : ℚ)) 255,
        JSNum.div (JSNum.num ((16 * d3 + d4 : ℕ) : ℚ)) 255,
        JSNum.div (JSNum.num ((16 * d5 + d6 : ℕ) : ℚ)) 255, JSNum.num 1⟩,
        rgbaString ⟨JSNum.div (JSNum.num ((16 * d1 + d2 : ℕ) : ℚ)) 255,
          JSNum.div (JSNum.num ((16 * d3 + d4 : ℕ) : ℚ)) 255,
          JSNum.div (JSNum.num ((16 * d5 + d6 : ℕ) : ℚ)) 255, JSNum.num 1⟩ false,
        getFormatPriority ColorFormat.hex⟩ := by
    simp only [parseColor]
    rw [htrim, if_pos hmatch, hnorm]
    dsimp only
    rw [parseColorToVSCode_hash, hbranch]
    simp
  have halpha : seq (JSNum.num 1) (JSNum.num 1) = true := by rfl
  refine ⟨?_, ?_⟩
  · rw [hparse]
    rfl
  · rw [hparse]
    dsimp only [Option.map]
    simp only [formatColorByFormat]
    rw [if_pos halpha]
    simp only [hexString]
    rw [hexChannelStr (16 * d1 + d2) (by omega), hexChannelStr (16 * d3 + d4) (by omega),
      hexChannelStr (16 * d5 + d6) (by omega)]
    have e1 : (16 * d1 + d2) / 16 = d1 := by omega
    have e2 : (16 * d1 + d2) % 16 = d2 := by omega
    have e3 : (16 * d3 + d4) / 16 = d3 := by omega
    have e4 : (16 * d3 + d4) % 16 = d4 := by omega
    have e5 : (16 * d5 + d6) / 16 = d5 := by omega
    have e6 : (16 * d5 + d6) % 16 = d6 := by omega
    rw [e1, e2, e3, e4, e5, e6, hn1, hn2, hn3, hn4, hn5, hn6]
    have hhash : asciiToLower '#' = '#' := by decide
    simp [toLowerList, hhash]

/-- C5 witness: the round-trip instantiated on the mixed-case input
`#AbCdEf`. -/
theorem parseColor_hex_roundtrip_witness :
    (parseColor ['#', 'A', 'b', 'C', 'd', 'E', 'f']).map (fun p => p.vscodeColor.alpha)
        = some (JSNum.num 1) ∧
    (parseColor ['#', 'A', 'b', 'C', 'd', 'E', 'f']).map
        (fun p => formatColorByFormat p.vscodeColor ColorFormat.hex)
      = some (some (toLowerList ['#', 'A', 'b', 'C', 'd', 'E', 'f'])) :=
  parseColor_hex_roundtrip 'A' 'b' 'C' 'd' 'E' 'f' 10 11 12 13 14 15
    (by decide) (by decide) (by decide) (by decide) (by decide) (by decide)

/-- C7 is refuted as originally stated: on the non-numeric percentage
component `x%` the code returns `NaN`, not the claimed 1.0
(`clamp(parseFloat("x%"), 0, 100)/100` is `NaN/100 = NaN`), and the value is
reachable: `parseColor "rgb(0, 0, 0, x%)"` succeeds with alpha `NaN`. -/
theorem normalizeAlpha_nonnumeric_percent_nan :
    normalizeAlpha (some ['x', '%']) = JSNum.nan ∧ JSNum.nan ≠ JSNum.num 1 ∧
    (parseColor "rgb(0, 0, 0, x%)".data).map (fun p => p.vscodeColor.alpha)
      = some JSNum.nan := by decide
